import Mathlib

/-!
Verification of the MAVLink runtime engine emitted by
`src/generator/mavgen_python.py`.  The Python runtime that the generator
emits (classes `MAVLink_header`, `MAVLink_message`, `MAVLinkSigning`,
`MAVLink` with `pack`, `send`, `__parse_char_legacy`, `check_signature`,
`decode`, `__eq__`) is shallowly embedded below.  Byte strings become
`List Nat` (each entry a byte value), Python ints become `Nat`/`Int` with
explicit wrap-around where the source wraps, dictionaries become
association lists, exceptions become `Except String`, and the mutable
`MAVLink`/`MAVLinkSigning` objects become explicit state records threaded
through each operation.  The SHA-256 function used for signing lives in
Python's `hashlib` (outside this repository), so it is passed in as an
abstract `digest : List Nat → List Nat` parameter; all results below hold
for every digest function.  Generator-time constants are explicit
parameters: `wire2` stands for `WIRE_PROTOCOL_VERSION == '2.0'`, and the
generated dialects modelled here use `crc_extra = True` and
`sort_fields = True` with scalar (non-array, non-char, non-float) fields.
-/

namespace Mavgen

def PROTOCOL_MARKER_V1 : Nat := 0xFE

def PROTOCOL_MARKER_V2 : Nat := 0xFD

def HEADER_LEN_V1 : Nat := 6

def HEADER_LEN_V2 : Nat := 10

def MAVLINK_SIGNATURE_BLOCK_LEN : Nat := 13

def MAVLINK_IFLAG_SIGNED : Nat := 0x01

/-- Little-endian encoding of `v` on `w` bytes, as `struct.pack` produces for
unsigned integer codes (`B`, `H`, `I`, `Q`). -/
def encodeLE : Nat → Nat → List Nat
  | 0, _ => []
  | w + 1, v => v % 256 :: encodeLE w (v / 256)

/-- Little-endian decoding of a byte list, as `struct.unpack` produces for
unsigned integer codes. -/
def decodeLE (bs : List Nat) : Nat := bs.foldr (fun b acc => b + 256 * acc) 0

theorem encodeLE_length (w v : Nat) : (encodeLE w v).length = w := by
  induction w generalizing v with
  | zero => rfl
  | succ w ih => simp [encodeLE, ih]

theorem decodeLE_encodeLE (w v : Nat) : decodeLE (encodeLE w v) = v % 256 ^ w := by
  induction w generalizing v with
  | zero => simp [encodeLE, decodeLE, Nat.mod_one]
  | succ w ih =>
    simp only [encodeLE, decodeLE, List.foldr_cons]
    have hrec : decodeLE (encodeLE w (v / 256)) = v / 256 % 256 ^ w := ih (v / 256)
    simp only [decodeLE] at hrec
    rw [hrec, pow_succ, mul_comm (256 ^ w) 256, Nat.mod_mul]

theorem decodeLE_encodeLE_of_lt {w v : Nat} (h : v < 256 ^ w) :
    decodeLE (encodeLE w v) = v := by
  rw [decodeLE_encodeLE, Nat.mod_eq_of_lt h]

theorem encodeLE_mem_lt (w v : Nat) : ∀ b ∈ encodeLE w v, b < 256 := by
  induction w generalizing v with
  | zero => simp [encodeLE]
  | succ w ih =>
    intro b hb
    simp only [encodeLE, List.mem_cons] at hb
    rcases hb with h | h
    · subst h; exact Nat.mod_lt _ (by norm_num)
    · exact ih _ _ h

/-- The fixed-width integer codes of `mavfmt` (struct codes `b`/`B`, `h`/`H`,
`i`/`I`, `q`/`Q`), the fragment the byte-level theorems quantify over; the
full `mavfmt` universe (`float`/`double`/`char`/arrays) is `WType` below,
which embeds these via `BScalar.int`. -/
inductive FieldType where
  | u8 | u16 | u32 | u64
  | i8 | i16 | i32 | i64
deriving DecidableEq, Repr

def FieldType.width : FieldType → Nat
  | .u8 => 1 | .u16 => 2 | .u32 => 4 | .u64 => 8
  | .i8 => 1 | .i16 => 2 | .i32 => 4 | .i64 => 8

def FieldType.isSigned : FieldType → Bool
  | .u8 => false | .u16 => false | .u32 => false | .u64 => false
  | .i8 => true | .i16 => true | .i32 => true | .i64 => true

/-- A value the Python `struct.pack` accepts for a field of type `t` without
raising `struct.error`. -/
def FieldType.Valid (t : FieldType) (v : Int) : Prop :=
  if t.isSigned then
    -(2 ^ (8 * t.width - 1) : Int) ≤ v ∧ v < 2 ^ (8 * t.width - 1)
  else 0 ≤ v ∧ v < 2 ^ (8 * t.width)

instance (t : FieldType) (v : Int) : Decidable (t.Valid v) := by
  unfold FieldType.Valid; infer_instance

/-- Bytes `struct.pack` emits for one field (two's complement for the signed
codes, little-endian). -/
def encodeField (t : FieldType) (v : Int) : List Nat :=
  encodeLE t.width (v % (2 ^ (8 * t.width) : Int)).toNat

/-- Value `struct.unpack` yields for one field's bytes. -/
def decodeField (t : FieldType) (bs : List Nat) : Int :=
  let raw : Nat := decodeLE bs
  if t.isSigned ∧ 2 ^ (8 * t.width - 1) ≤ raw then
    (raw : Int) - 2 ^ (8 * t.width)
  else (raw : Int)

theorem encodeField_length (t : FieldType) (v : Int) :
    (encodeField t v).length = t.width := encodeLE_length _ _

theorem pow_width_eq (t : FieldType) : (256 : Nat) ^ t.width = 2 ^ (8 * t.width) := by
  rw [show (256 : Nat) = 2 ^ 8 from rfl, ← pow_mul]

theorem decodeField_encodeField {t : FieldType} {v : Int} (h : t.Valid v) :
    decodeField t (encodeField t v) = v := by
  have hMpos : (0 : Int) < 2 ^ (8 * t.width) := by positivity
  have hlo' : 0 ≤ v % (2 ^ (8 * t.width) : Int) := Int.emod_nonneg v (by positivity)
  have hhi' : v % (2 ^ (8 * t.width) : Int) < 2 ^ (8 * t.width) := Int.emod_lt_of_pos v hMpos
  have hcastM : ((2 ^ (8 * t.width) : Nat) : Int) = 2 ^ (8 * t.width) := by
    push_cast
    ring
  have hcastH : ((2 ^ (8 * t.width - 1) : Nat) : Int) = 2 ^ (8 * t.width - 1) := by
    push_cast
    ring
  have hsplitM : (2 : Int) ^ (8 * t.width) = 2 ^ (8 * t.width - 1) * 2 := by
    rw [← pow_succ]
    congr 1
    cases t <;> simp [FieldType.width]
  have hraw : decodeLE (encodeLE t.width (v % (2 ^ (8 * t.width) : Int)).toNat)
      = (v % (2 ^ (8 * t.width) : Int)).toNat := by
    apply decodeLE_encodeLE_of_lt
    rw [pow_width_eq]
    omega
  unfold decodeField encodeField
  simp only [hraw]
  unfold FieldType.Valid at h
  by_cases hs : t.isSigned = true
  · rw [if_pos hs] at h
    obtain ⟨hlo, hhi⟩ := h
    by_cases hneg : v < 0
    · have hv' : v % (2 ^ (8 * t.width) : Int) = v + 2 ^ (8 * t.width) := by
        have h1 := Int.add_mul_emod_self_left (a := v) (b := (2 : Int) ^ (8 * t.width)) (c := 1)
        rw [mul_one] at h1
        rw [← h1]
        exact Int.emod_eq_of_lt (by omega) (by omega)
      rw [if_pos ⟨hs, by omega⟩]
      omega
    · have hv' : v % (2 ^ (8 * t.width) : Int) = v :=
        Int.emod_eq_of_lt (by omega) (by omega)
      rw [if_neg ?_]
      · omega
      · rintro ⟨-, hc⟩
        omega
  · rw [if_neg hs] at h
    obtain ⟨hlo, hhi⟩ := h
    have hv' : v % (2 ^ (8 * t.width) : Int) = v := Int.emod_eq_of_lt hlo hhi
    rw [if_neg ?_]
    · omega
    · rintro ⟨h1, -⟩
      exact hs h1

/-- Serialisation of wire-order field values: the `struct.pack(fmt, ...)`
call of a generated message `pack` method. -/
def packFields : List FieldType → List Int → List Nat
  | [], _ => []
  | _ :: _, [] => []
  | t :: ts, v :: vs => encodeField t v ++ packFields ts vs

/-- Deserialisation into wire-order field values: the `type.unpacker.unpack`
call in `MAVLink.decode`. -/
def unpackFields : List FieldType → List Nat → List Int
  | [], _ => []
  | t :: ts, bs => decodeField t (bs.take t.width) :: unpackFields ts (bs.drop t.width)

/-- Total payload size of a schema's wire format: `type.unpacker.size`. -/
def csizeOf (ts : List FieldType) : Nat := (ts.map FieldType.width).sum

theorem packFields_length {ts : List FieldType} {vs : List Int}
    (h : vs.length = ts.length) : (packFields ts vs).length = csizeOf ts := by
  induction ts generalizing vs with
  | nil => cases vs <;> simp [packFields, csizeOf]
  | cons t ts ih =>
    cases vs with
    | nil => simp at h
    | cons v vs =>
      simp only [packFields, List.length_append, encodeField_length, csizeOf,
        List.map_cons, List.sum_cons]
      rw [ih (by simpa using h)]
      rfl

theorem unpackFields_packFields {ts : List FieldType} {vs : List Int}
    (hlen : vs.length = ts.length)
    (hval : ∀ p ∈ List.zip ts vs, p.1.Valid p.2) :
    unpackFields ts (packFields ts vs) = vs := by
  induction ts generalizing vs with
  | nil => cases vs with
    | nil => rfl
    | cons v vs => simp at hlen
  | cons t ts ih =>
    cases vs with
    | nil => simp at hlen
    | cons v vs =>
      have hw : (encodeField t v).length = t.width := encodeField_length t v
      simp only [packFields, unpackFields]
      rw [List.take_append_of_le_length (by omega), List.drop_append_of_le_length (by omega)]
      rw [List.take_of_length_le (by omega), List.drop_eq_nil_of_le (by omega)]
      simp only [List.nil_append]
      rw [decodeField_encodeField (hval (t, v) (by simp [List.zip]))]
      rw [ih (by simpa using hlen) (fun p hp => hval p (by
        simp only [List.zip_cons_cons, List.mem_cons]
        exact Or.inr hp))]

/-- The final value of `plen` after the trailing-zero-stripping loop
`while plen > 1 and payload[plen-1] == nullbyte: plen -= 1` of
`MAVLink_message.pack`, run from count `p`. -/
def trimLen (payload : List Nat) : Nat → Nat
  | 0 => 0
  | 1 => 1
  | p + 2 => if payload.getD (p + 1) 0 = 0 then trimLen payload (p + 1) else p + 2

theorem trimLen_le (payload : List Nat) (p : Nat) : trimLen payload p ≤ p := by
  induction p using Nat.strong_induction_on with
  | _ p ih =>
    match p with
    | 0 => simp [trimLen]
    | 1 => simp [trimLen]
    | p + 2 =>
      unfold trimLen
      split
      · exact le_trans (ih (p + 1) (by omega)) (by omega)
      · exact le_refl _

theorem trimLen_pos (payload : List Nat) (p : Nat) (hp : 1 ≤ p) :
    1 ≤ trimLen payload p := by
  induction p using Nat.strong_induction_on with
  | _ p ih =>
    match p with
    | 1 => simp [trimLen]
    | p + 2 =>
      unfold trimLen
      split
      · exact ih (p + 1) (by omega) (by omega)
      · omega

theorem trimLen_dropped_zero (payload : List Nat) (p : Nat) :
    ∀ j, trimLen payload p ≤ j → j < p → payload.getD j 0 = 0 := by
  induction p using Nat.strong_induction_on with
  | _ p ih =>
    match p with
    | 0 => omega
    | 1 => intro j h1 h2; simp [trimLen] at h1; omega
    | p + 2 =>
      intro j h1 h2
      unfold trimLen at h1
      by_cases hz : payload.getD (p + 1) 0 = 0
      · rw [if_pos hz] at h1
        by_cases hj : j = p + 1
        · subst hj; exact hz
        · exact ih (p + 1) (by omega) j h1 (by omega)
      · rw [if_neg hz] at h1
        omega

/-- The right-zero-padding step of `MAVLink.decode`:
`if len(mbuf) < csize: mbuf.extend([0]*(csize - len(mbuf)))`. -/
def zeroPad (bs : List Nat) (csize : Nat) : List Nat :=
  if bs.length < csize then bs ++ List.replicate (csize - bs.length) 0 else bs

theorem zeroPad_length (bs : List Nat) (csize : Nat) :
    (zeroPad bs csize).length = max csize bs.length := by
  unfold zeroPad
  split <;> simp <;> omega

theorem csize_le_zeroPad_length (bs : List Nat) (csize : Nat) :
    csize ≤ (zeroPad bs csize).length := by
  rw [zeroPad_length]; omega

/-- Trimming trailing zeros and then zero-padding back to the original length
restores the original byte list. -/
theorem zeroPad_take_trimLen (l : List Nat) :
    zeroPad (l.take (trimLen l l.length)) l.length = l := by
  have htle : trimLen l l.length ≤ l.length := trimLen_le l l.length
  have hlen : (l.take (trimLen l l.length)).length = trimLen l l.length := by
    simp only [List.length_take]
    omega
  have hdrop : l.drop (trimLen l l.length)
      = List.replicate (l.length - trimLen l l.length) 0 := by
    rw [List.eq_replicate_iff]
    constructor
    · simp [List.length_drop]
    · intro b hb
      obtain ⟨j, hj, hget⟩ := List.getElem_of_mem hb
      have hj' : trimLen l l.length + j < l.length := by
        simp only [List.length_drop] at hj
        omega
      rw [List.getElem_drop] at hget
      have hz : l.getD (trimLen l l.length + j) 0 = 0 := by
        apply trimLen_dropped_zero l l.length _ (by omega) hj'
      rw [List.getD_eq_getElem?_getD, List.getElem?_eq_getElem hj'] at hz
      simp only [Option.getD_some] at hz
      rw [← hget]
      exact hz
  unfold zeroPad
  by_cases hlt : (l.take (trimLen l l.length)).length < l.length
  · rw [if_pos hlt, hlen]
    conv_rhs => rw [← List.take_append_drop (trimLen l l.length) l]
    rw [hdrop]
  · rw [if_neg hlt]
    rw [hlen] at hlt
    have he : trimLen l l.length = l.length := by omega
    rw [he, List.take_length]

/-- Modelled from the spec: the Checksum Engine of §4.1 (`x25crc` is imported
from `pymavlink.generator.mavcrc`, which is not under `src/`).  One step of
the CRC-16/X25 accumulator over a 16-bit register. -/
def x25_step (acc b : Nat) : Nat :=
  let tmp := b ^^^ (acc &&& 0xFF)
  let tmp2 := (tmp ^^^ (tmp <<< 4)) &&& 0xFF
  (acc >>> 8) ^^^ (tmp2 <<< 8) ^^^ (tmp2 <<< 3) ^^^ (tmp2 >>> 4)

/-- Modelled from the spec: CRC-16/X25 over a byte list, register initialised
to 0xFFFF. -/
def x25crc (bytes : List Nat) : Nat := bytes.foldl x25_step 0xFFFF

theorem x25_step_lt (acc b : Nat) (h : acc < 2 ^ 16) : x25_step acc b < 2 ^ 16 := by
  unfold x25_step
  have htmp2 : ((b ^^^ (acc &&& 0xFF)) ^^^ ((b ^^^ (acc &&& 0xFF)) <<< 4)) &&& 0xFF < 2 ^ 16 := by
    have h1 : ((b ^^^ (acc &&& 0xFF)) ^^^ ((b ^^^ (acc &&& 0xFF)) <<< 4)) &&& 0xFF ≤ 0xFF :=
      Nat.and_le_right
    omega
  apply Nat.xor_lt_two_pow (Nat.xor_lt_two_pow (Nat.xor_lt_two_pow ?_ ?_) ?_) ?_
  · have h2 : acc >>> 8 = acc / 2 ^ 8 := Nat.shiftRight_eq_div_pow _ _
    have h1 : acc / 2 ^ 8 ≤ acc := Nat.div_le_self _ _
    omega
  · have h1 : ((b ^^^ (acc &&& 0xFF)) ^^^ ((b ^^^ (acc &&& 0xFF)) <<< 4)) &&& 0xFF ≤ 0xFF :=
      Nat.and_le_right
    rw [Nat.shiftLeft_eq]
    have : (((b ^^^ (acc &&& 0xFF)) ^^^ ((b ^^^ (acc &&& 0xFF)) <<< 4)) &&& 0xFF) * 2 ^ 8
        ≤ 0xFF * 2 ^ 8 := Nat.mul_le_mul_right _ h1
    omega
  · have h1 : ((b ^^^ (acc &&& 0xFF)) ^^^ ((b ^^^ (acc &&& 0xFF)) <<< 4)) &&& 0xFF ≤ 0xFF :=
      Nat.and_le_right
    rw [Nat.shiftLeft_eq]
    have : (((b ^^^ (acc &&& 0xFF)) ^^^ ((b ^^^ (acc &&& 0xFF)) <<< 4)) &&& 0xFF) * 2 ^ 3
        ≤ 0xFF * 2 ^ 3 := Nat.mul_le_mul_right _ h1
    omega
  · have h1 : ((b ^^^ (acc &&& 0xFF)) ^^^ ((b ^^^ (acc &&& 0xFF)) <<< 4)) &&& 0xFF ≤ 0xFF :=
      Nat.and_le_right
    have h2 : (((b ^^^ (acc &&& 0xFF)) ^^^ ((b ^^^ (acc &&& 0xFF)) <<< 4)) &&& 0xFF) >>> 4
        = (((b ^^^ (acc &&& 0xFF)) ^^^ ((b ^^^ (acc &&& 0xFF)) <<< 4)) &&& 0xFF) / 2 ^ 4 :=
      Nat.shiftRight_eq_div_pow _ _
    have h3 := Nat.div_le_self ((((b ^^^ (acc &&& 0xFF)) ^^^ ((b ^^^ (acc &&& 0xFF)) <<< 4)) &&& 0xFF)) (2 ^ 4)
    omega

theorem x25crc_lt (bytes : List Nat) : x25crc bytes < 2 ^ 16 := by
  unfold x25crc
  have hgen : ∀ acc, acc < 2 ^ 16 → bytes.foldl x25_step acc < 2 ^ 16 := by
    induction bytes with
    | nil => intro acc h; simpa using h
    | cons b bs ih =>
      intro acc h
      simp only [List.foldl_cons]
      exact ih _ (x25_step_lt acc b h)
  exact hgen 0xFFFF (by norm_num)

/-- One message schema, as materialised in a generated `MAVLink_*_message`
class: the wire-order field types (from `fmtstr` over `ordered_fields`), the
declared-to-wire permutation `orders` (the generator's `order_map`), its
inverse (recoverable from `fieldnames`/`ordered_fieldnames`), the CRC-extra
seed byte, the message id and name. -/
structure Schema where
  name : String
  msgId : Nat
  wiretypes : List FieldType
  order_map : List Nat
  iorder : List Nat
  crc_extra : Nat
deriving DecidableEq, Repr

/-- Well-formedness facts the generator guarantees: `order_map` and `iorder`
are mutually inverse permutations of the field indices (the generator derives
them from the distinct `fieldnames` / `ordered_fieldnames` lists). -/
def Schema.WF (s : Schema) : Prop :=
  s.order_map.length = s.wiretypes.length ∧
  s.iorder.length = s.wiretypes.length ∧
  (∀ i, i < s.order_map.length → s.order_map.getD i 0 < s.wiretypes.length) ∧
  (∀ j, j < s.iorder.length → s.iorder.getD j 0 < s.wiretypes.length) ∧
  (∀ i, i < s.order_map.length → s.iorder.getD (s.order_map.getD i 0) 0 = i) ∧
  (∀ j, j < s.iorder.length → s.order_map.getD (s.iorder.getD j 0) 0 = j)

instance (s : Schema) : Decidable s.WF := by
  unfold Schema.WF; infer_instance

/-- The observable state of a `MAVLink_message` instance: type name, the
wire header stored in `_header`, field values in declared order, and the
`_payload`/`_crc`/`_msgbuf`/`_signed`/`_link_id` attributes. -/
structure Message where
  typeName : String
  msgId : Nat
  incompat_flags : Nat
  compat_flags : Nat
  mlen : Nat
  seq : Nat
  srcSystem : Nat
  srcComponent : Nat
  fields : List Int
  crc : Nat
  payload : List Nat
  msgbuf : List Nat
  signed : Bool
  link_id : Option Nat
deriving DecidableEq, Repr, Inhabited

/-- `MAVLink_message.__eq__` (with `__ne__` its negation): compares the type
name, sequence number, source system, source component and the per-field
values, and nothing else; comparison against `None` is `False`.  Scalar
integer fields are returned unchanged by `format_attr`, so the field
comparison is plain value equality here. -/
def msg_eq (a : Message) (other : Option Message) : Bool :=
  match other with
  | none => false
  | some b =>
    a.typeName == b.typeName && a.seq == b.seq && a.srcSystem == b.srcSystem &&
      a.srcComponent == b.srcComponent && a.fields == b.fields

/-- `MAVLinkSigning` state.  `allow_unsigned_callback` receives the message
id (the `self` argument carries no information the model needs).  The
`stream_timestamps` dict becomes an association list; entries are only ever
added by `check_signature`'s fresh-key branch, which matches dict insertion
order. -/
structure Signing where
  secret_key : Option (List Nat)
  timestamp : Nat
  link_id : Nat
  sign_outgoing : Bool
  allow_unsigned_callback : Option (Nat → Bool)
  stream_timestamps : List ((Nat × Nat × Nat) × Nat)
  sig_count : Nat
  badsig_count : Nat
  goodsig_count : Nat
  unsigned_count : Nat
  reject_count : Nat

/-- The initial `MAVLinkSigning()` state. -/
def Signing.init : Signing :=
  { secret_key := none, timestamp := 0, link_id := 0, sign_outgoing := false,
    allow_unsigned_callback := none, stream_timestamps := [], sig_count := 0,
    badsig_count := 0, goodsig_count := 0, unsigned_count := 0, reject_count := 0 }

/-- Dictionary lookup `stream_key in stream_timestamps` /
`stream_timestamps[stream_key]`. -/
def streamLookup (tbl : List ((Nat × Nat × Nat) × Nat)) (k : Nat × Nat × Nat) : Option Nat :=
  match tbl with
  | [] => none
  | (k', v) :: r => if k' = k then some v else streamLookup r k

/-- Dictionary insertion of a key that is not present yet (the only kind of
insertion `check_signature` performs). -/
def streamInsert (tbl : List ((Nat × Nat × Nat) × Nat)) (k : Nat × Nat × Nat) (v : Nat) :
    List ((Nat × Nat × Nat) × Nat) := tbl ++ [(k, v)]

theorem streamLookup_insert (tbl : List ((Nat × Nat × Nat) × Nat)) (k : Nat × Nat × Nat)
    (v : Nat) (h : streamLookup tbl k = none) :
    streamLookup (streamInsert tbl k v) k = some v := by
  induction tbl with
  | nil => simp [streamLookup, streamInsert]
  | cons p r ih =>
    obtain ⟨k', v'⟩ := p
    simp only [streamLookup] at h
    simp only [streamInsert, List.cons_append, streamLookup]
    by_cases he : k' = k
    · rw [if_pos he] at h
      exact absurd h (by simp)
    · rw [if_neg he] at h ⊢
      exact ih h

theorem streamLookup_insert_preserves (tbl : List ((Nat × Nat × Nat) × Nat))
    (k k' : Nat × Nat × Nat) (v v' : Nat) (h : streamLookup tbl k' = some v') :
    streamLookup (streamInsert tbl k v) k' = some v' := by
  induction tbl with
  | nil => simp [streamLookup] at h
  | cons p r ih =>
    obtain ⟨k'', v''⟩ := p
    simp only [streamLookup] at h
    simp only [streamInsert, List.cons_append, streamLookup]
    by_cases he : k'' = k'
    · rwa [if_pos he] at h ⊢
    · rw [if_neg he] at h ⊢
      exact ih h

/-- `MAVLink.check_signature`: the signature/replay verification of an
incoming signed frame.  `digest` abstracts `sha256(...).digest()`.  Returns
the boolean result and the updated signing state. -/
def check_signature (digest : List Nat → List Nat) (sg : Signing) (msgbuf : List Nat)
    (srcSystem srcComponent : Nat) : Bool × Signing :=
  let n := msgbuf.length
  let timestamp_buf := (msgbuf.take (n - 6)).drop (n - 12)
  let link_id := msgbuf.getD (n - 13) 0
  let timestamp := decodeLE timestamp_buf
  let stream_key := (link_id, srcSystem, srcComponent)
  let final : Signing → Bool × Signing := fun sg' =>
    let sig1 := (digest (sg'.secret_key.getD [] ++ msgbuf.take (n - 6))).take 6
    let sig2 := msgbuf.drop (n - 6)
    if sig1 ≠ sig2 then (false, sg')
    else (true, { sg' with timestamp := max sg'.timestamp timestamp })
  match streamLookup sg.stream_timestamps stream_key with
  | some last =>
    if timestamp ≤ last then (false, sg)
    else final sg
  | none =>
    if timestamp + 6000 * 1000 < sg.timestamp then (false, sg)
    else final { sg with
      stream_timestamps := streamInsert sg.stream_timestamps stream_key timestamp }

/-- `MAVLink_header`: the mutable header object of a message. -/
structure MAVLink_header where
  msgId : Nat
  incompat_flags : Nat
  compat_flags : Nat
  mlen : Nat
  seq : Nat
  srcSystem : Nat
  srcComponent : Nat
deriving DecidableEq, Repr

/-- `MAVLink_header.pack`.  `wire2` is the generator constant
`WIRE_PROTOCOL_VERSION == '2.0'` (for which `${PROTOCOL_MARKER}` is the V2
marker).  Fields are used as raw bytes; the byte-range preconditions under
which `struct.pack` does not raise appear as hypotheses of the theorems. -/
def MAVLink_header.pack (h : MAVLink_header) (wire2 : Bool) (force_mavlink1 : Bool) :
    List Nat :=
  if wire2 ∧ ¬force_mavlink1 then
    [PROTOCOL_MARKER_V2, h.mlen, h.incompat_flags, h.compat_flags, h.seq,
      h.srcSystem, h.srcComponent] ++ encodeLE 2 (h.msgId &&& 0xFFFF) ++ [h.msgId >>> 16]
  else
    [PROTOCOL_MARKER_V1, h.mlen, h.seq, h.srcSystem, h.srcComponent, h.msgId]

/-- The mutable per-session state of a `MAVLink` object (fields that are pure
I/O plumbing — `file`, callbacks, the `mavnative` backend, `startup_time` —
are outside the model; `MAVLINK_IGNORE_CRC` is its default `0`). -/
structure MAVLinkState where
  seq : Nat
  srcSystem : Nat
  srcComponent : Nat
  buf : List Nat
  buf_index : Nat
  expected_length : Nat
  have_prefix_error : Bool
  robust_parsing : Bool
  total_packets_sent : Nat
  total_bytes_sent : Nat
  total_packets_received : Nat
  total_bytes_received : Nat
  total_receive_errors : Nat
  signing : Signing

/-- `MAVLink_message.sign_packet`: appends `struct.pack('<BQ', link_id,
timestamp)[:7]` (the link-id byte plus the low 6 timestamp bytes), then the
first 6 bytes of `sha256(secret_key + msgbuf)`, and increments the outgoing
signing timestamp. -/
def sign_packet (digest : List Nat → List Nat) (sg : Signing) (msgbuf : List Nat) :
    List Nat × Signing :=
  let buf1 := msgbuf ++ [sg.link_id] ++ encodeLE 6 sg.timestamp
  let sig := (digest (sg.secret_key.getD [] ++ buf1)).take 6
  (buf1 ++ sig, { sg with timestamp := sg.timestamp + 1 })

/-- `MAVLink_message.pack` composed with a generated subclass `pack`, which
passes `struct.pack(fmt, ...)` over the declared field `values` read in wire
order (`ordered_fields`; wire slot `j` holds declared field `iorder[j]`).
Trims trailing zero bytes (never below one byte) when packing MAVLink2
frames, builds the header from session identity, appends the X25 checksum
seeded with `crc_extra`, and signs when the session signs outgoing. -/
def message_pack (wire2 : Bool) (digest : List Nat → List Nat) (sch : Schema)
    (values : List Int) (mav : MAVLinkState) (force_mavlink1 : Bool) :
    Message × MAVLinkState :=
  let payload := packFields sch.wiretypes (sch.iorder.map fun d => values.getD d 0)
  let plen := if wire2 ∧ ¬force_mavlink1 then trimLen payload payload.length
    else payload.length
  let payloadT := payload.take plen
  let incompat_flags := if mav.signing.sign_outgoing then MAVLINK_IFLAG_SIGNED else 0
  let header : MAVLink_header :=
    { msgId := sch.msgId, incompat_flags := incompat_flags, compat_flags := 0,
      mlen := payloadT.length, seq := mav.seq, srcSystem := mav.srcSystem,
      srcComponent := mav.srcComponent }
  let msgbuf0 := header.pack wire2 force_mavlink1 ++ payloadT
  let crc0 := x25crc (msgbuf0.drop 1 ++ [sch.crc_extra])
  let msgbuf1 := msgbuf0 ++ encodeLE 2 crc0
  let signres :=
    if mav.signing.sign_outgoing ∧ ¬force_mavlink1 then
      sign_packet digest mav.signing msgbuf1
    else (msgbuf1, mav.signing)
  ({ typeName := sch.name, msgId := sch.msgId, incompat_flags := incompat_flags,
     compat_flags := 0, mlen := payloadT.length, seq := mav.seq,
     srcSystem := mav.srcSystem, srcComponent := mav.srcComponent,
     fields := values, crc := crc0, payload := payloadT, msgbuf := signres.1,
     signed := false, link_id := none },
   { mav with signing := signres.2 })

/-- `MAVLink.send` (the `file.write` and the send callback are I/O and
outside the model): packs, then advances the sequence number mod 256 and the
sent-packet/sent-byte counters. -/
def send (wire2 : Bool) (digest : List Nat → List Nat) (sch : Schema) (values : List Int)
    (mav : MAVLinkState) (force_mavlink1 : Bool) : List Nat × MAVLinkState :=
  let packres := message_pack wire2 digest sch values mav force_mavlink1
  (packres.1.msgbuf,
   { packres.2 with
      seq := (packres.2.seq + 1) % 256,
      total_packets_sent := packres.2.total_packets_sent + 1,
      total_bytes_sent := packres.2.total_bytes_sent + packres.1.msgbuf.length })

/-- Successful result of `MAVLink.decode`: a decoded message, or the
`MAVLink_unknown` placeholder for a message id missing from `mavlink_map`. -/
inductive ParsedMsg where
  | msg (m : Message)
  | unknown (msgId : Nat) (data : List Nat)
deriving DecidableEq, Repr

/-- Header unpacking step of `MAVLink.decode`: any first byte other than the
V1 marker selects the 10-byte MAVLink2 header layout; too few bytes model
the `struct.error` re-raised as `MAVError`. -/
def decode_header (msgbuf : List Nat) : Except String (Nat × MAVLink_header) :=
  if msgbuf.getD 0 0 ≠ PROTOCOL_MARKER_V1 then
    match msgbuf with
    | _b0 :: b1 :: b2 :: b3 :: b4 :: b5 :: b6 :: b7 :: b8 :: b9 :: _ =>
      .ok (10, { msgId := decodeLE [b7, b8] ||| (b9 <<< 16), incompat_flags := b2,
                 compat_flags := b3, mlen := b1, seq := b4, srcSystem := b5,
                 srcComponent := b6 })
    | _ => .error "Unable to unpack MAVLink header"
  else
    match msgbuf with
    | _b0 :: b1 :: b2 :: b3 :: b4 :: b5 :: _ =>
      .ok (6, { msgId := b5, incompat_flags := 0, compat_flags := 0, mlen := b1,
                seq := b2, srcSystem := b3, srcComponent := b4 })
    | _ => .error "Unable to unpack MAVLink header"

/-- Checksum verification step of `MAVLink.decode`: reads the stored CRC
(`msgbuf[-(2+signature_len):][:2]`), recomputes X25 over
`msgbuf[1:-(2+signature_len)]` plus the schema's `crc_extra` seed, and
compares (`MAV_IGNORE_CRC` is unset). -/
def decode_crc (msgbuf : List Nat) (signature_len crc_extra : Nat) : Except String Nat :=
  let n := msgbuf.length
  let crcbytes := (msgbuf.drop (n - (2 + signature_len))).take 2
  if crcbytes.length < 2 then .error "Unable to unpack MAVLink CRC"
  else
    let crc := decodeLE crcbytes
    let crcbuf := (msgbuf.take (n - (2 + signature_len))).drop 1 ++ [crc_extra]
    if crc ≠ x25crc crcbuf then .error "invalid MAVLink CRC" else .ok crc

/-- The `allow_unsigned_callback` policy arm of `MAVLink.decode`'s signature
block: the callback may accept the frame (counting `unsigned_count`) or
reject it (counting `reject_count`); with no callback the frame is rejected.
`sig_ok` is `False` on every path reaching this arm. -/
def decode_signature_policy (sg : Signing) (msgId : Nat) : Except String Bool × Signing :=
  match sg.allow_unsigned_callback with
  | some cb =>
    if cb msgId then (.ok false, { sg with unsigned_count := sg.unsigned_count + 1 })
    else (.error "Invalid signature", { sg with reject_count := sg.reject_count + 1 })
  | none => (.error "Invalid signature", sg)

/-- The signature-acceptance block of `MAVLink.decode`: signature statistics,
`check_signature`, and the `allow_unsigned_callback` policy; `Except.error`
is the `raise MAVError('Invalid signature')`.  The returned `Bool` is
`sig_ok`. -/
def decode_signature (digest : List Nat → List Nat) (sg : Signing)
    (signature_len msgId : Nat) (msgbuf : List Nat) (srcSystem srcComponent : Nat) :
    Except String Bool × Signing :=
  let sg1 := if signature_len = MAVLINK_SIGNATURE_BLOCK_LEN then
    { sg with sig_count := sg.sig_count + 1 } else sg
  match sg1.secret_key with
  | none => (.ok false, sg1)
  | some _ =>
    if signature_len = MAVLINK_SIGNATURE_BLOCK_LEN then
      match check_signature digest sg1 msgbuf srcSystem srcComponent with
      | (true, sg2) => (.ok true, { sg2 with goodsig_count := sg2.goodsig_count + 1 })
      | (false, sg2) =>
        decode_signature_policy { sg2 with badsig_count := sg2.badsig_count + 1 } msgId
    else decode_signature_policy sg1 msgId

/-- Payload slicing, right-zero-padding, `struct` unpacking and field
reordering of `MAVLink.decode`, for integer-scalar schemas (`sort_fields`
holds and no field is an array, so the no-array reorder path applies:
declared field `i` takes wire value `orders[i]`).  The full field stage —
the array-grouping reorder branch and the string-termination loop included —
is `decode_fields_x` below. -/
def decode_fields (sch : Schema) (msgbuf : List Nat) (headerlen signature_len : Nat) :
    Except String (List Int) :=
  let n := msgbuf.length
  let csize := csizeOf sch.wiretypes
  let mbuf := (msgbuf.take (n - (2 + signature_len))).drop headerlen
  let mbuf2 := zeroPad mbuf csize
  if mbuf2.length < csize then .error "Bad message length"
  else
    let t := unpackFields sch.wiretypes (mbuf2.take csize)
    .ok (sch.order_map.map fun o => t.getD o 0)

/-- `MAVLink.decode` over the registry `reg` (the generated `mavlink_map`),
returning the result together with the updated signing state.
`Except.error` models `raise MAVError(...)`; error strings are shortened
tags of the messages the source formats. -/
def decode (reg : Nat → Option Schema) (digest : List Nat → List Nat) (sg : Signing)
    (msgbuf : List Nat) : Except String ParsedMsg × Signing :=
  match decode_header msgbuf with
  | .error e => (.error e, sg)
  | .ok (headerlen, h) =>
    let signature_len := if h.incompat_flags &&& MAVLINK_IFLAG_SIGNED ≠ 0 then
      MAVLINK_SIGNATURE_BLOCK_LEN else 0
    let magic := msgbuf.getD 0 0
    if magic ≠ PROTOCOL_MARKER_V1 ∧ magic ≠ PROTOCOL_MARKER_V2 then
      (.error "invalid MAVLink prefix", sg)
    else if (msgbuf.length : Int) - (headerlen + 2 + signature_len) ≠ h.mlen then
      (.error "invalid MAVLink message length", sg)
    else
      match reg h.msgId with
      | none => (.ok (.unknown h.msgId msgbuf), sg)
      | some sch =>
        match decode_crc msgbuf signature_len sch.crc_extra with
        | .error e => (.error e, sg)
        | .ok crc =>
          match decode_signature digest sg signature_len h.msgId msgbuf
              h.srcSystem h.srcComponent with
          | (.error e, sg') => (.error e, sg')
          | (.ok sig_ok, sg') =>
            match decode_fields sch msgbuf headerlen signature_len with
            | .error e => (.error e, sg')
            | .ok fields =>
              (.ok (.msg {
                typeName := sch.name, msgId := h.msgId,
                incompat_flags := h.incompat_flags, compat_flags := h.compat_flags,
                mlen := h.mlen, seq := h.seq, srcSystem := h.srcSystem,
                srcComponent := h.srcComponent, fields := fields, crc := crc,
                payload := (msgbuf.take (msgbuf.length - (2 + signature_len))).drop 6,
                msgbuf := msgbuf, signed := sig_ok,
                link_id := if sig_ok then some (msgbuf.getD (msgbuf.length - 13) 0)
                  else none }), sg')

deriving instance DecidableEq for Except

/-- Per-call result of the streaming parser: no message yet, a decoded
message or `MAVLink_unknown` placeholder, a `MAVLink_bad_data` placeholder
(robust mode), or a raised `MAVError` (strict mode). -/
inductive ParseOutcome where
  | none
  | msg (m : ParsedMsg)
  | badData (data : List Nat) (reason : String)
  | raised (e : String)
deriving DecidableEq, Repr

/-- Frame dispatch of `__parse_char_legacy` once a complete candidate frame
has been sliced and consumed: the invalid-incompat-flags check followed by
`decode`, wrapped in `try/except` when `robust_parsing` is set.  `magic` and
`incompat_flags` are the values from the 3-byte peek.  The Python test
`(incompat_flags & ~MAVLINK_IFLAG_SIGNED) != 0` is written as
`incompat_flags >>> 1 ≠ 0`, equivalent for every non-negative int. -/
def handle_frame (reg : Nat → Option Schema) (digest : List Nat → List Nat)
    (st : MAVLinkState) (magic incompat_flags : Nat) (mbuf : List Nat) :
    ParseOutcome × MAVLinkState :=
  if st.robust_parsing then
    if magic = PROTOCOL_MARKER_V2 ∧ incompat_flags >>> 1 ≠ 0 then
      (.badData mbuf "invalid incompat_flags",
       { st with total_receive_errors := st.total_receive_errors + 1 })
    else
      match decode reg digest st.signing mbuf with
      | (.error e, sg') =>
        (.badData mbuf e,
         { st with signing := sg',
                   total_receive_errors := st.total_receive_errors + 1 })
      | (.ok pm, sg') => (.msg pm, { st with signing := sg' })
  else
    if magic = PROTOCOL_MARKER_V2 ∧ incompat_flags >>> 1 ≠ 0 then
      (.raised "invalid incompat_flags", st)
    else
      match decode reg digest st.signing mbuf with
      | (.error e, sg') => (.raised e, { st with signing := sg' })
      | (.ok pm, sg') => (.msg pm, { st with signing := sg' })

/-- The bad-prefix resynchronisation branch of `__parse_char_legacy`:
advance past the offending byte, then either emit a bad-data placeholder
(robust mode) or raise once per contiguous bad run (strict mode). -/
def parse_resync (st : MAVLinkState) (header_len : Nat) : ParseOutcome × MAVLinkState :=
  let magic := st.buf.getD st.buf_index 0
  let st1 := { st with buf_index := st.buf_index + 1 }
  if st1.robust_parsing then
    (.badData [magic] "Bad prefix",
     { st1 with expected_length := header_len + 2,
                total_receive_errors := st1.total_receive_errors + 1 })
  else if st1.have_prefix_error then (.none, st1)
  else
    (.raised "invalid MAVLink prefix",
     { st1 with have_prefix_error := true,
                total_receive_errors := st1.total_receive_errors + 1 })

/-- The expected-total-frame-length computation of the 3-byte peek of
`__parse_char_legacy` (`mav20_h3_unpacker` block): payload-length byte,
plus 13 when the magic is the V2 marker with the signed flag set, plus
header length plus 2. -/
def peek_expected_length (st : MAVLinkState) (header_len : Nat) : Nat :=
  (if st.buf.getD st.buf_index 0 = PROTOCOL_MARKER_V2 ∧
      st.buf.getD (st.buf_index + 2) 0 &&& MAVLINK_IFLAG_SIGNED ≠ 0 then
    st.buf.getD (st.buf_index + 1) 0 + MAVLINK_SIGNATURE_BLOCK_LEN
  else st.buf.getD (st.buf_index + 1) 0) + header_len + 2

/-- The frame-completion check and consumption of `__parse_char_legacy`:
once `expected_length` bytes are buffered, slice exactly that many bytes as
the candidate frame, advance the cursor past it, reset the expected-length
hint, and dispatch. -/
def parse_try_frame (reg : Nat → Option Schema) (digest : List Nat → List Nat)
    (st2 : MAVLinkState) (header_len buf_len : Nat) : ParseOutcome × MAVLinkState :=
  if header_len + 2 ≤ st2.expected_length ∧ st2.expected_length ≤ buf_len then
    handle_frame reg digest
      { st2 with buf_index := st2.buf_index + st2.expected_length,
                 expected_length := header_len + 2 }
      (st2.buf.getD st2.buf_index 0) (st2.buf.getD (st2.buf_index + 2) 0)
      ((st2.buf.drop st2.buf_index).take st2.expected_length)
  else (.none, st2)

/-- `MAVLink.__parse_char_legacy`: bad-prefix resynchronisation, the 3-byte
peek computing the expected total frame length, and candidate-frame
consumption. -/
def parse_char_legacy (reg : Nat → Option Schema) (digest : List Nat → List Nat)
    (st : MAVLinkState) : ParseOutcome × MAVLinkState :=
  let buf_len := st.buf.length - st.buf_index
  let header_len := if 1 ≤ buf_len ∧ st.buf.getD st.buf_index 0 = PROTOCOL_MARKER_V2 then
    HEADER_LEN_V2 else HEADER_LEN_V1
  if 1 ≤ buf_len ∧ st.buf.getD st.buf_index 0 ≠ PROTOCOL_MARKER_V1 ∧
      st.buf.getD st.buf_index 0 ≠ PROTOCOL_MARKER_V2 then
    parse_resync st header_len
  else
    parse_try_frame reg digest
      (if 3 ≤ buf_len then
        { st with have_prefix_error := false,
                  expected_length := peek_expected_length st header_len }
      else { st with have_prefix_error := false })
      header_len buf_len

/-- `MAVLink.parse_char`: appends input bytes, counts received bytes, runs
the legacy parser, counts received packets, and releases the buffer when it
is fully consumed (callback dispatch is I/O and outside the model). -/
def parse_char (reg : Nat → Option Schema) (digest : List Nat → List Nat)
    (st : MAVLinkState) (c : List Nat) : ParseOutcome × MAVLinkState :=
  let st0 := { st with buf := st.buf ++ c,
                       total_bytes_received := st.total_bytes_received + c.length }
  let res := parse_char_legacy reg digest st0
  match res.1 with
  | .none =>
    (.none,
     if res.2.buf.length - res.2.buf_index = 0 ∧ res.2.buf_index ≠ 0 then
       { res.2 with buf := [], buf_index := 0 }
     else res.2)
  | .raised e => (.raised e, res.2)
  | m => (m, { res.2 with total_packets_received := res.2.total_packets_received + 1 })

theorem trimLen_all_zero (l : List Nat) (n : Nat) (hz : ∀ j, j < n → l.getD j 0 = 0)
    (h1 : 1 ≤ n) : trimLen l n = 1 := by
  induction n using Nat.strong_induction_on with
  | _ n ih =>
    match n with
    | 1 => simp [trimLen]
    | k + 2 =>
      unfold trimLen
      rw [if_pos (hz (k + 1) (by omega))]
      exact ih (k + 1) (by omega) (fun j hj => hz j (by omega)) (by omega)

/-- Claim C7: when `pack` returns through `MAVLink.send`, the session's
outgoing sequence counter has advanced by one modulo 256 and the
sent-bytes/sent-packets counters include the produced frame. -/
theorem send_advances_seq_and_counters (wire2 : Bool) (digest : List Nat → List Nat)
    (sch : Schema) (values : List Int) (mav : MAVLinkState) (force_mavlink1 : Bool) :
    (send wire2 digest sch values mav force_mavlink1).2.seq = (mav.seq + 1) % 256 ∧
    (send wire2 digest sch values mav force_mavlink1).2.total_packets_sent
      = mav.total_packets_sent + 1 ∧
    (send wire2 digest sch values mav force_mavlink1).2.total_bytes_sent
      = mav.total_bytes_sent + (send wire2 digest sch values mav force_mavlink1).1.length :=
  ⟨rfl, rfl, rfl⟩

/-- Claim C9: `__eq__` compares only the type name, sequence number, source
system, source component and the field values (first conjunct restates the
comparison); messages differing only in CRC, payload, raw buffer or signing
outcome compare equal, and comparison with `None` yields `False`. -/
theorem msg_eq_ignores_crc_buf_signed (m b : Message) (c1 c2 : Nat)
    (p1 p2 b1 b2 : List Nat) (s1 s2 : Bool) (l1 l2 : Option Nat) :
    msg_eq m (some b) = (m.typeName == b.typeName && m.seq == b.seq &&
      m.srcSystem == b.srcSystem && m.srcComponent == b.srcComponent &&
      m.fields == b.fields) ∧
    msg_eq { m with crc := c1, payload := p1, msgbuf := b1, signed := s1, link_id := l1 }
      (some { m with crc := c2, payload := p2, msgbuf := b2, signed := s2, link_id := l2 })
      = true ∧
    msg_eq m none = false := by
  refine ⟨rfl, ?_, rfl⟩
  simp [msg_eq]

/-- Recogniser for the decode error raised when the zero-padded payload is
still shorter than the schema size (`'Bad message of type ... needs ...'`). -/
def isBadMessageLengthError : Except String ParsedMsg → Bool
  | .error e => e == "Bad message length"
  | _ => false

theorem decode_fields_ok (sch : Schema) (msgbuf : List Nat) (headerlen signature_len : Nat) :
    decode_fields sch msgbuf headerlen signature_len
      = .ok (sch.order_map.map fun o =>
          (unpackFields sch.wiretypes
            ((zeroPad ((msgbuf.take (msgbuf.length - (2 + signature_len))).drop headerlen)
              (csizeOf sch.wiretypes)).take (csizeOf sch.wiretypes))).getD o 0) := by
  unfold decode_fields
  rw [if_neg (by
    have h := csize_le_zeroPad_length
      ((msgbuf.take (msgbuf.length - (2 + signature_len))).drop headerlen)
      (csizeOf sch.wiretypes)
    omega)]

theorem decode_header_error_spec {msgbuf : List Nat} {e : String}
    (h : decode_header msgbuf = .error e) : e = "Unable to unpack MAVLink header" := by
  unfold decode_header at h
  split at h <;> split at h <;> simp_all

theorem decode_crc_error_spec {msgbuf : List Nat} {sl ce : Nat} {e : String}
    (h : decode_crc msgbuf sl ce = .error e) :
    e = "Unable to unpack MAVLink CRC" ∨ e = "invalid MAVLink CRC" := by
  simp only [decode_crc] at h
  split at h
  · left; simp_all
  · split at h
    · right; simp_all
    · simp_all

theorem decode_signature_policy_error_spec {sg : Signing} {mid : Nat} {e : String}
    {sg' : Signing} (h : decode_signature_policy sg mid = (.error e, sg')) :
    e = "Invalid signature" := by
  unfold decode_signature_policy at h
  repeat' split at h
  all_goals simp_all

theorem decode_signature_error_spec {digest : List Nat → List Nat} {sg : Signing}
    {sl mid : Nat} {msgbuf : List Nat} {s c : Nat} {e : String} {sg' : Signing}
    (h : decode_signature digest sg sl mid msgbuf s c = (.error e, sg')) :
    e = "Invalid signature" := by
  simp only [decode_signature] at h
  repeat' split at h
  all_goals first
    | exact decode_signature_policy_error_spec h
    | simp_all

/-- Claim C10: the post-padding length re-check inside `decode` is
unreachable — no input produces the bad-message-length error. -/
theorem decode_pad_error_unreachable (reg : Nat → Option Schema)
    (digest : List Nat → List Nat) (sg : Signing) (msgbuf : List Nat) :
    isBadMessageLengthError (decode reg digest sg msgbuf).1 = false := by
  unfold decode
  cases hdh : decode_header msgbuf with
  | error e =>
    have he := decode_header_error_spec hdh
    simp [isBadMessageLengthError, he]
  | ok p =>
    obtain ⟨headerlen, h⟩ := p
    simp only [decode_fields_ok]
    repeat' split
    all_goals
      first
        | rfl
        | (simp only [isBadMessageLengthError]
           first
             | (rcases decode_crc_error_spec (by assumption) with h1 | h1 <;>
                  subst h1 <;> decide)
             | (have h1 := decode_signature_error_spec (by assumption)
                subst h1
                decide))

/-- A digest function standing in for SHA-256 in concrete scenarios. -/
def zeroDigest : List Nat → List Nat := fun _ => [0, 0, 0, 0, 0, 0, 0, 0]

/-- A signing state whose replay table already knows stream key `(0, 1, 1)`
with highest accepted timestamp 100. -/
def knownStreamSigning : Signing :=
  { Signing.init with
    secret_key := some [7]
    stream_timestamps := [((0, 1, 1), 100)] }

/-- A signed-frame tail: link id 0, timestamp 200, and a digest that
`zeroDigest` reproduces. -/
def dupFrame : List Nat := [0] ++ encodeLE 6 200 ++ [0, 0, 0, 0, 0, 0]

/-- Claim C2 (evidence of the code bug): with the stream key already present
in the replay table, `check_signature` accepts the identical frame twice; the
first acceptance never writes the frame's timestamp back into
`stream_timestamps`, so the duplicate's timestamp is still strictly greater
than the stored one and passes. -/
theorem check_signature_accepts_duplicate_on_known_stream :
    (check_signature zeroDigest knownStreamSigning dupFrame 1 1).1 = true ∧
    (check_signature zeroDigest knownStreamSigning dupFrame 1 1).2.stream_timestamps
      = [((0, 1, 1), 100)] ∧
    (check_signature zeroDigest
        (check_signature zeroDigest knownStreamSigning dupFrame 1 1).2 dupFrame 1 1).1
      = true := by
  decide

/-- Receiver schema for the rejected-signed-frame scenario. -/
def c3Schema : Schema :=
  { name := "T", msgId := 5, wiretypes := [.u8], order_map := [0], iorder := [0],
    crc_extra := 9 }

/-- Registry holding only `c3Schema`. -/
def c3Registry : Nat → Option Schema := fun i => if i = 5 then some c3Schema else none

/-- A sender session that signs outgoing frames (link id 3, timestamp 50). -/
def c3Sender : MAVLinkState :=
  { seq := 0, srcSystem := 4, srcComponent := 5, buf := [], buf_index := 0,
    expected_length := 8, have_prefix_error := false, robust_parsing := true,
    total_packets_sent := 0, total_bytes_sent := 0, total_packets_received := 0,
    total_bytes_received := 0, total_receive_errors := 0,
    signing := { Signing.init with
                 sign_outgoing := true
                 secret_key := some [9]
                 timestamp := 50
                 link_id := 3 } }

/-- A signed frame whose signature the receiver will reject: packed under a
digest function the receiver's digest does not reproduce. -/
def c3SignedFrame : List Nat :=
  (message_pack true (fun _ => [1, 1, 1, 1, 1, 1, 1]) c3Schema [77] c3Sender false).1.msgbuf

/-- The receiver session: robust parsing, a secret key, empty replay table,
the frame fully buffered. -/
def c3Receiver : MAVLinkState :=
  { c3Sender with
    buf := c3SignedFrame
    signing := { Signing.init with secret_key := some [8] } }

/-- Claim C3 (counterexample to the claim as stated): a frame rejected with
`Invalid signature` leaves a new entry in the signing replay table — the
session state of the failing call differs from the pre-state in more than the
receive-error counter and the consumed byte range. -/
theorem decode_failure_mutates_replay_table :
    (parse_char_legacy c3Registry zeroDigest c3Receiver).1
      = .badData c3SignedFrame "Invalid signature" ∧
    c3Receiver.signing.stream_timestamps = [] ∧
    (parse_char_legacy c3Registry zeroDigest c3Receiver).2.signing.stream_timestamps
      = [((3, 4, 5), 50)] ∧
    (parse_char_legacy c3Registry zeroDigest c3Receiver).2.total_receive_errors
      = c3Receiver.total_receive_errors + 1 := by
  decide

/-- Claim C6: packing a MAVLink2 frame (not forcing legacy framing) stores
the payload with trailing zeros trimmed but never below one byte — an
all-zero payload packs as a single zero byte — and the field-decoding stage
zero-pads a short received payload on the right back up to the schema's
fixed payload size. -/
theorem pack_trims_decode_pads (digest : List Nat → List Nat) (sch : Schema)
    (values : List Int) (mav : MAVLinkState) (payload : List Nat)
    (hp : payload = packFields sch.wiretypes (sch.iorder.map fun d => values.getD d 0)) :
    (message_pack true digest sch values mav false).1.payload
      = payload.take (trimLen payload payload.length) ∧
    (payload ≠ [] → 1 ≤ (message_pack true digest sch values mav false).1.payload.length) ∧
    (payload ≠ [] → (∀ b ∈ payload, b = 0) →
      (message_pack true digest sch values mav false).1.payload = [0]) ∧
    (∀ bs : List Nat, ∀ csize : Nat, bs.length ≤ csize →
      zeroPad bs csize = bs ++ List.replicate (csize - bs.length) 0 ∧
      (zeroPad bs csize).length = csize) := by
  subst hp
  have hpay : (message_pack true digest sch values mav false).1.payload
      = (packFields sch.wiretypes (sch.iorder.map fun d => values.getD d 0)).take
          (trimLen (packFields sch.wiretypes (sch.iorder.map fun d => values.getD d 0))
            (packFields sch.wiretypes (sch.iorder.map fun d => values.getD d 0)).length) := rfl
  refine ⟨hpay, ?_, ?_, ?_⟩
  · intro hne
    have h1 : 1 ≤ (packFields sch.wiretypes (sch.iorder.map fun d => values.getD d 0)).length := by
      cases hc : packFields sch.wiretypes (sch.iorder.map fun d => values.getD d 0) with
      | nil => exact absurd hc hne
      | cons a l => simp
    have h2 := trimLen_pos (packFields sch.wiretypes (sch.iorder.map fun d => values.getD d 0))
      (packFields sch.wiretypes (sch.iorder.map fun d => values.getD d 0)).length h1
    rw [hpay]
    simp only [List.length_take]
    omega
  · intro hne hz
    have h1 : 1 ≤ (packFields sch.wiretypes (sch.iorder.map fun d => values.getD d 0)).length := by
      cases hc : packFields sch.wiretypes (sch.iorder.map fun d => values.getD d 0) with
      | nil => exact absurd hc hne
      | cons a l => simp
    have ht : trimLen (packFields sch.wiretypes (sch.iorder.map fun d => values.getD d 0))
        (packFields sch.wiretypes (sch.iorder.map fun d => values.getD d 0)).length = 1 := by
      apply trimLen_all_zero _ _ ?_ h1
      intro j hj
      have hmem : (packFields sch.wiretypes (sch.iorder.map fun d => values.getD d 0)).getD j 0
          ∈ packFields sch.wiretypes (sch.iorder.map fun d => values.getD d 0) := by
        rw [List.getD_eq_getElem?_getD, List.getElem?_eq_getElem hj]
        exact List.getElem_mem _
      exact hz _ hmem
    rw [hpay, ht]
    cases hc : packFields sch.wiretypes (sch.iorder.map fun d => values.getD d 0) with
    | nil => exact absurd hc hne
    | cons a l =>
      have ha : a = 0 := hz a (by rw [hc]; exact List.mem_cons_self a l)
      simp [ha]
  · intro bs csize hle
    constructor
    · unfold zeroPad
      by_cases hlt : bs.length < csize
      · rw [if_pos hlt]
      · rw [if_neg hlt]
        have : csize - bs.length = 0 := by omega
        simp [this]
    · rw [zeroPad_length]
      omega

/-- Claim C6 witness: a two-field schema whose all-zero payload packs to the
single byte `0`, and a short 1-byte payload zero-pads back to 3 bytes. -/
theorem pack_trims_decode_pads_witness :
    ((message_pack true zeroDigest
        { name := "W", msgId := 1, wiretypes := [.u16, .u8], order_map := [1, 0],
          iorder := [1, 0], crc_extra := 3 }
        [0, 0] c3Sender false).1.payload = [0] ∧
      zeroPad [5] 3 = [5] ++ List.replicate 2 0 ∧ (zeroPad [5] 3).length = 3) := by
  have h := pack_trims_decode_pads zeroDigest
    { name := "W", msgId := 1, wiretypes := [.u16, .u8], order_map := [1, 0],
      iorder := [1, 0], crc_extra := 3 }
    [0, 0] c3Sender
    (packFields [FieldType.u16, FieldType.u8]
      (([1, 0] : List Nat).map fun d => ([0, 0] : List Int).getD d 0)) rfl
  refine ⟨?_, (h.2.2.2 [5] 3 (by decide)).1, (h.2.2.2 [5] 3 (by decide)).2⟩
  have h3 := h.2.2.1 (by decide) (by decide)
  exact h3

/-- Claim C4: for a stream key with no replay-table entry, the incoming
48-bit timestamp passes iff it is at most 6 000 000 ticks behind the session
signing timestamp: a further-past timestamp is rejected outright, and inside
the window the key is recorded with the incoming timestamp and the overall
verdict reduces to the digest comparison. -/
theorem check_signature_new_stream_window (digest : List Nat → List Nat) (sg : Signing)
    (msgbuf : List Nat) (srcSystem srcComponent : Nat) (ts : Nat) (key : Nat × Nat × Nat)
    (hts : ts = decodeLE ((msgbuf.take (msgbuf.length - 6)).drop (msgbuf.length - 12)))
    (hkey : key = (msgbuf.getD (msgbuf.length - 13) 0, srcSystem, srcComponent))
    (hfresh : streamLookup sg.stream_timestamps key = none) :
    (ts + 6000 * 1000 < sg.timestamp →
      check_signature digest sg msgbuf srcSystem srcComponent = (false, sg)) ∧
    (sg.timestamp ≤ ts + 6000 * 1000 →
      streamLookup
          (check_signature digest sg msgbuf srcSystem srcComponent).2.stream_timestamps key
        = some ts ∧
      ((check_signature digest sg msgbuf srcSystem srcComponent).1 = true ↔
        (digest (sg.secret_key.getD [] ++ msgbuf.take (msgbuf.length - 6))).take 6
          = msgbuf.drop (msgbuf.length - 6))) := by
  subst hts hkey
  unfold check_signature
  simp only [hfresh]
  constructor
  · intro hwin
    rw [if_pos hwin]
  · intro hwin
    rw [if_neg (by omega)]
    have hins := streamLookup_insert sg.stream_timestamps
      (msgbuf.getD (msgbuf.length - 13) 0, srcSystem, srcComponent)
      (decodeLE ((msgbuf.take (msgbuf.length - 6)).drop (msgbuf.length - 12))) hfresh
    by_cases hsig : (digest (sg.secret_key.getD [] ++ msgbuf.take (msgbuf.length - 6))).take 6
        = msgbuf.drop (msgbuf.length - 6)
    · rw [if_neg (by simpa using hsig)]
      refine ⟨hins, by simp [hsig]⟩
    · rw [if_pos (by simpa using hsig)]
      refine ⟨hins, by simp [hsig]⟩

/-- Claim C4 witness: fresh key, session timestamp 7 000 000; a frame with
timestamp 1 000 000 is inside the window and accepted with a matching digest,
and the theorem's window conclusions evaluate at that input. -/
theorem check_signature_new_stream_window_witness :
    ((1000000 : Nat) = decodeLE ((([0] ++ encodeLE 6 1000000 ++ [0, 0, 0, 0, 0, 0]).take
        (([0] ++ encodeLE 6 1000000 ++ [0, 0, 0, 0, 0, 0]).length - 6)).drop
        (([0] ++ encodeLE 6 1000000 ++ [0, 0, 0, 0, 0, 0]).length - 12)) ∧
      streamLookup ({ Signing.init with
          secret_key := some [7]
          timestamp := 7000000 } : Signing).stream_timestamps (0, 1, 1) = none) ∧
    ({ Signing.init with
        secret_key := some [7]
        timestamp := 7000000 } : Signing).timestamp ≤ 1000000 + 6000 * 1000 ∧
    streamLookup (check_signature zeroDigest
        { Signing.init with
          secret_key := some [7]
          timestamp := 7000000 }
        ([0] ++ encodeLE 6 1000000 ++ [0, 0, 0, 0, 0, 0]) 1 1).2.stream_timestamps (0, 1, 1)
      = some 1000000 := by
  have h := check_signature_new_stream_window zeroDigest
    { Signing.init with
      secret_key := some [7]
      timestamp := 7000000 }
    ([0] ++ encodeLE 6 1000000 ++ [0, 0, 0, 0, 0, 0]) 1 1 1000000 (0, 1, 1)
    (by decide) (by decide) (by decide)
  exact ⟨⟨by decide, by decide⟩, by decide, (h.2 (by decide)).1⟩

/-- Claim C5: with a valid magic byte next and at least 3 unconsumed bytes,
the parser computes the expected total frame length as header length (6 for
V1, 10 for V2) + payload-length byte + 2 checksum bytes, + 13 exactly when
the magic is the V2 marker and the signed incompatible flag is set; it
returns no message (recording that expected length) until that many bytes
are buffered, and then consumes exactly that many bytes as the candidate
frame handed to the decode dispatch. -/
theorem parse_expected_frame_length (reg : Nat → Option Schema)
    (digest : List Nat → List Nat) (st : MAVLinkState) (hl total : Nat)
    (hmagic : st.buf.getD st.buf_index 0 = PROTOCOL_MARKER_V1 ∨
      st.buf.getD st.buf_index 0 = PROTOCOL_MARKER_V2)
    (h3 : 3 ≤ st.buf.length - st.buf_index)
    (hhl : hl = if st.buf.getD st.buf_index 0 = PROTOCOL_MARKER_V2 then HEADER_LEN_V2
      else HEADER_LEN_V1)
    (htotal : total = hl + st.buf.getD (st.buf_index + 1) 0 + 2 +
      (if st.buf.getD st.buf_index 0 = PROTOCOL_MARKER_V2 ∧
          st.buf.getD (st.buf_index + 2) 0 &&& MAVLINK_IFLAG_SIGNED ≠ 0 then
        MAVLINK_SIGNATURE_BLOCK_LEN else 0)) :
    (st.buf.length - st.buf_index < total →
      parse_char_legacy reg digest st
        = (.none, { st with have_prefix_error := false, expected_length := total })) ∧
    (total ≤ st.buf.length - st.buf_index →
      parse_char_legacy reg digest st
        = handle_frame reg digest
            { st with have_prefix_error := false,
                      buf_index := st.buf_index + total,
                      expected_length := hl + 2 }
            (st.buf.getD st.buf_index 0) (st.buf.getD (st.buf_index + 2) 0)
            ((st.buf.drop st.buf_index).take total)) := by
  have hnopre : ¬(1 ≤ st.buf.length - st.buf_index ∧
      st.buf.getD st.buf_index 0 ≠ PROTOCOL_MARKER_V1 ∧
      st.buf.getD st.buf_index 0 ≠ PROTOCOL_MARKER_V2) := by
    rintro ⟨-, hne1, hne2⟩
    rcases hmagic with hm | hm
    · exact hne1 hm
    · exact hne2 hm
  have hhl2 : (if 1 ≤ st.buf.length - st.buf_index ∧
      st.buf.getD st.buf_index 0 = PROTOCOL_MARKER_V2 then
      HEADER_LEN_V2 else HEADER_LEN_V1) = hl := by
    rw [hhl]
    by_cases hv : st.buf.getD st.buf_index 0 = PROTOCOL_MARKER_V2
    · rw [if_pos ⟨by omega, hv⟩, if_pos hv]
    · rw [if_neg (by tauto), if_neg hv]
  have hpeek : peek_expected_length st hl = total := by
    unfold peek_expected_length
    rw [htotal]
    split <;> omega
  have hlle : hl + 2 ≤ total := by
    rw [htotal]
    split <;> omega
  have hstep : parse_char_legacy reg digest st = parse_try_frame reg digest
      { st with have_prefix_error := false, expected_length := total } hl
      (st.buf.length - st.buf_index) := by
    simp only [parse_char_legacy]
    rw [if_neg hnopre, hhl2, if_pos h3, hpeek]
  rw [hstep]
  unfold parse_try_frame
  constructor
  · intro hlt
    rw [if_neg ?_]
    rintro ⟨-, hc⟩
    have hc' : total ≤ st.buf.length - st.buf_index := hc
    omega
  · intro hge
    rw [if_pos ?_]
    exact ⟨hlle, hge⟩

/-- A parser state with only the first 3 bytes of a signed V2 frame
buffered: magic `0xFD`, payload length 1, signed incompatible flag set. -/
def c5WaitState : MAVLinkState := { c3Sender with buf := [0xFD, 1, 1] }

/-- Claim C5 witness: on the 3-byte prefix of a signed V2 frame the parser
computes expected total length 10 + 1 + 2 + 13 = 26, returns no message, and
records that expected length. -/
theorem parse_expected_frame_length_witness :
    (c5WaitState.buf.getD c5WaitState.buf_index 0 = PROTOCOL_MARKER_V1 ∨
      c5WaitState.buf.getD c5WaitState.buf_index 0 = PROTOCOL_MARKER_V2) ∧
    3 ≤ c5WaitState.buf.length - c5WaitState.buf_index ∧
    c5WaitState.buf.length - c5WaitState.buf_index < 26 ∧
    parse_char_legacy c3Registry zeroDigest c5WaitState
      = (.none, { c5WaitState with have_prefix_error := false, expected_length := 26 }) := by
  have h := parse_expected_frame_length c3Registry zeroDigest c5WaitState 10 26
    (by decide) (by decide) (by decide) (by decide)
  refine ⟨by decide, by decide, by decide, ?_⟩
  have h2 := h.1 (by decide)
  convert h2 using 2

theorem decode_header_ok_spec {msgbuf : List Nat} {hl : Nat} {h : MAVLink_header}
    (hd : decode_header msgbuf = .ok (hl, h)) :
    (msgbuf.getD 0 0 = PROTOCOL_MARKER_V1 ∧ hl = 6 ∧ 6 ≤ msgbuf.length ∧
      h.incompat_flags = 0 ∧ h.mlen = msgbuf.getD 1 0) ∨
    (msgbuf.getD 0 0 ≠ PROTOCOL_MARKER_V1 ∧ hl = 10 ∧ 10 ≤ msgbuf.length ∧
      h.incompat_flags = msgbuf.getD 2 0 ∧ h.mlen = msgbuf.getD 1 0) := by
  unfold decode_header at hd
  split at hd
  · rename_i hne
    right
    split at hd
    · simp only [Except.ok.injEq, Prod.mk.injEq] at hd
      obtain ⟨hhl, hh⟩ := hd
      subst hhl
      subst hh
      refine ⟨hne, rfl, by simp, by simp [List.getD], by simp [List.getD]⟩
    · simp at hd
  · rename_i hne
    left
    have hm : msgbuf.getD 0 0 = PROTOCOL_MARKER_V1 := not_not.mp hne
    split at hd
    · simp only [Except.ok.injEq, Prod.mk.injEq] at hd
      obtain ⟨hhl, hh⟩ := hd
      subst hhl
      subst hh
      refine ⟨hm, rfl, by simp, rfl, by simp [List.getD]⟩
    · simp at hd

/-- Claim C8: every successfully decoded message stores as `_payload` the
slice from byte offset 6 of the raw frame up to the checksum, regardless of
header length; consequently a V2 frame's stored payload keeps the last 4
header bytes and has length `mlen + 4`, while a V1 frame's stored payload is
exactly the true payload region of length `mlen`. -/
theorem decode_payload_slice (reg : Nat → Option Schema) (digest : List Nat → List Nat)
    (sg : Signing) (msgbuf : List Nat) (m : Message) (sl : Nat)
    (hsl : sl = if m.incompat_flags &&& MAVLINK_IFLAG_SIGNED ≠ 0 then
      MAVLINK_SIGNATURE_BLOCK_LEN else 0)
    (h : (decode reg digest sg msgbuf).1 = .ok (.msg m)) :
    m.payload = (msgbuf.take (msgbuf.length - (2 + sl))).drop 6 ∧
    (msgbuf.getD 0 0 = PROTOCOL_MARKER_V2 → m.payload.length = m.mlen + 4) ∧
    (msgbuf.getD 0 0 = PROTOCOL_MARKER_V1 →
      m.payload = (msgbuf.take (6 + m.mlen)).drop 6 ∧ m.payload.length = m.mlen) := by
  unfold decode at h
  cases hdh : decode_header msgbuf with
  | error e =>
    rw [hdh] at h
    simp at h
  | ok p =>
    obtain ⟨hl, hdr⟩ := p
    rw [hdh] at h
    have hspec := decode_header_ok_spec hdh
    simp only at h
    set SL := (if hdr.incompat_flags &&& MAVLINK_IFLAG_SIGNED ≠ 0 then
      MAVLINK_SIGNATURE_BLOCK_LEN else 0) with hSL
    split at h
    · simp at h
    split at h
    · simp at h
    rename_i hmagic hleneq
    cases hreg : reg hdr.msgId with
    | none =>
      rw [hreg] at h
      simp at h
    | some sch =>
      rw [hreg] at h
      simp only at h
      cases hcrc : decode_crc msgbuf SL sch.crc_extra with
      | error e =>
        rw [hcrc] at h
        simp at h
      | ok crc =>
        rw [hcrc] at h
        cases hds : decode_signature digest sg SL hdr.msgId msgbuf
            hdr.srcSystem hdr.srcComponent with
        | mk fst sg' =>
          rw [hds] at h
          cases fst with
          | error e => simp at h
          | ok sig_ok =>
            rw [decode_fields_ok] at h
            simp only [Except.ok.injEq, ParsedMsg.msg.injEq] at h
            subst h
            simp only [not_not] at hleneq
            simp only at hsl
            rw [← hSL] at hsl
            subst hsl
            have hSLb : SL ≤ MAVLINK_SIGNATURE_BLOCK_LEN := by
              rw [hSL]
              split <;> simp [MAVLINK_SIGNATURE_BLOCK_LEN]
            refine ⟨rfl, ?_, ?_⟩
            · intro hv2
              have hten : hl = 10 := by
                rcases hspec with ⟨hm, -⟩ | ⟨-, h10, -⟩
                · rw [hm] at hv2
                  exact absurd hv2 (by decide)
                · exact h10
              subst hten
              simp only [List.length_drop, List.length_take]
              omega
            · intro hv1
              have hsix : hl = 6 ∧ hdr.incompat_flags = 0 := by
                rcases hspec with ⟨-, h6, -, hif, -⟩ | ⟨hne, -⟩
                · exact ⟨h6, hif⟩
                · exact absurd hv1 hne
              obtain ⟨h6, hif⟩ := hsix
              subst h6
              have hSL0 : SL = 0 := by
                rw [hSL, hif]
                decide
              constructor
              · have he : msgbuf.length - (2 + SL) = 6 + hdr.mlen := by omega
                simp only [he]
              · simp only [List.length_drop, List.length_take]
                omega

/-- Projection of a successful decode to its message. -/
def getMsg : Except String ParsedMsg → Message
  | .ok (.msg m) => m
  | _ => default

/-- An unsigned sender session. -/
def c8Sender : MAVLinkState := { c3Sender with signing := Signing.init }

/-- An unsigned V2 frame produced by the packer. -/
def c8Frame : List Nat :=
  (message_pack true zeroDigest c3Schema [77] c8Sender false).1.msgbuf

/-- Claim C8 witness: decoding a concrete unsigned V2 frame succeeds and the
stored payload is 4 bytes longer than the declared payload length. -/
theorem decode_payload_slice_witness :
    ((0 : Nat) = (if (getMsg (decode c3Registry zeroDigest Signing.init c8Frame).1).incompat_flags
        &&& MAVLINK_IFLAG_SIGNED ≠ 0 then MAVLINK_SIGNATURE_BLOCK_LEN else 0) ∧
      (decode c3Registry zeroDigest Signing.init c8Frame).1
        = .ok (.msg (getMsg (decode c3Registry zeroDigest Signing.init c8Frame).1)) ∧
      c8Frame.getD 0 0 = PROTOCOL_MARKER_V2) ∧
    (getMsg (decode c3Registry zeroDigest Signing.init c8Frame).1).payload.length
      = (getMsg (decode c3Registry zeroDigest Signing.init c8Frame).1).mlen + 4 := by
  have h := decode_payload_slice c3Registry zeroDigest Signing.init c8Frame
    (getMsg (decode c3Registry zeroDigest Signing.init c8Frame).1) 0 (by decide) (by decide)
  exact ⟨⟨by decide, by decide, by decide⟩, h.2.1 (by decide)⟩

theorem check_signature_effects {digest : List Nat → List Nat} {sg : Signing}
    {msgbuf : List Nat} {s c : Nat} {b : Bool} {sg' : Signing}
    (hres : check_signature digest sg msgbuf s c = (b, sg')) :
    (b = false → sg'.timestamp = sg.timestamp) ∧
    sg'.secret_key = sg.secret_key ∧
    sg'.link_id = sg.link_id ∧
    sg'.sign_outgoing = sg.sign_outgoing ∧
    sg'.allow_unsigned_callback = sg.allow_unsigned_callback ∧
    sg'.sig_count = sg.sig_count ∧
    sg'.badsig_count = sg.badsig_count ∧
    sg'.goodsig_count = sg.goodsig_count ∧
    sg'.unsigned_count = sg.unsigned_count ∧
    sg'.reject_count = sg.reject_count ∧
    (∀ k v, streamLookup sg.stream_timestamps k = some v →
      streamLookup sg'.stream_timestamps k = some v) := by
  simp only [check_signature] at hres
  repeat' split at hres
  all_goals
    simp only [Prod.mk.injEq] at hres
  all_goals
    obtain ⟨hb, hsg⟩ := hres
  all_goals
    subst hb
  all_goals
    subst hsg
  all_goals
    refine ⟨?_, rfl, rfl, rfl, rfl, rfl, rfl, rfl, rfl, rfl, ?_⟩
  all_goals
    first
      | (intro hbf; first | rfl | (exact absurd hbf (by decide)))
      | (intro k v hkv
         first
           | exact hkv
           | exact streamLookup_insert_preserves _ _ _ _ _ hkv)

theorem decode_signature_policy_effects {sg : Signing} {mid : Nat}
    {r : Except String Bool} {sg' : Signing}
    (h : decode_signature_policy sg mid = (r, sg')) :
    sg'.timestamp = sg.timestamp ∧ sg'.secret_key = sg.secret_key ∧
    sg'.link_id = sg.link_id ∧ sg'.sign_outgoing = sg.sign_outgoing ∧
    sg'.allow_unsigned_callback = sg.allow_unsigned_callback ∧
    sg'.stream_timestamps = sg.stream_timestamps := by
  unfold decode_signature_policy at h
  repeat' split at h
  all_goals
    simp only [Prod.mk.injEq] at h
  all_goals
    obtain ⟨-, hsg⟩ := h
  all_goals
    subst hsg
  all_goals
    exact ⟨rfl, rfl, rfl, rfl, rfl, rfl⟩

theorem decode_signature_error_effects {digest : List Nat → List Nat} {sg : Signing}
    {sl mid : Nat} {msgbuf : List Nat} {s c : Nat} {e : String} {sg' : Signing}
    (h : decode_signature digest sg sl mid msgbuf s c = (.error e, sg')) :
    sg'.timestamp = sg.timestamp ∧
    sg'.secret_key = sg.secret_key ∧
    sg'.link_id = sg.link_id ∧
    sg'.sign_outgoing = sg.sign_outgoing ∧
    sg'.allow_unsigned_callback = sg.allow_unsigned_callback ∧
    (∀ k v, streamLookup sg.stream_timestamps k = some v →
      streamLookup sg'.stream_timestamps k = some v) := by
  simp only [decode_signature] at h
  split at h
  · simp at h
  · split at h
    · split at h
      · simp at h
      · rename_i heq
        have hcs := check_signature_effects heq
        have hpol := decode_signature_policy_effects h
        obtain ⟨hts, hsk, hli, hso, hcb, htbl⟩ := hpol
        refine ⟨?_, ?_, ?_, ?_, ?_, ?_⟩
        · rw [hts]
          simp only
          exact hcs.1 rfl
        · rw [hsk]
          simp only
          exact hcs.2.1
        · rw [hli]
          simp only
          exact hcs.2.2.1
        · rw [hso]
          simp only
          exact hcs.2.2.2.1
        · rw [hcb]
          simp only
          exact hcs.2.2.2.2.1
        · intro k v hkv
          rw [htbl]
          simp only
          exact hcs.2.2.2.2.2.2.2.2.2.2 k v hkv
    · have hpol := decode_signature_policy_effects h
      obtain ⟨hts, hsk, hli, hso, hcb, htbl⟩ := hpol
      exact ⟨hts, hsk, hli, hso, hcb, fun k v hkv => htbl ▸ hkv⟩

theorem decode_error_effects {reg : Nat → Option Schema} {digest : List Nat → List Nat}
    {sg : Signing} {msgbuf : List Nat} {e : String} {sg' : Signing}
    (h : decode reg digest sg msgbuf = (.error e, sg')) :
    sg'.timestamp = sg.timestamp ∧
    sg'.secret_key = sg.secret_key ∧
    sg'.link_id = sg.link_id ∧
    sg'.sign_outgoing = sg.sign_outgoing ∧
    sg'.allow_unsigned_callback = sg.allow_unsigned_callback ∧
    (∀ k v, streamLookup sg.stream_timestamps k = some v →
      streamLookup sg'.stream_timestamps k = some v) := by
  have hid : sg = sg' →
      sg'.timestamp = sg.timestamp ∧ sg'.secret_key = sg.secret_key ∧
      sg'.link_id = sg.link_id ∧ sg'.sign_outgoing = sg.sign_outgoing ∧
      sg'.allow_unsigned_callback = sg.allow_unsigned_callback ∧
      (∀ k v, streamLookup sg.stream_timestamps k = some v →
        streamLookup sg'.stream_timestamps k = some v) := by
    rintro rfl
    exact ⟨rfl, rfl, rfl, rfl, rfl, fun k v hkv => hkv⟩
  unfold decode at h
  cases hdh : decode_header msgbuf with
  | error e' =>
    rw [hdh] at h
    simp only [Prod.mk.injEq] at h
    exact hid h.2
  | ok p =>
    obtain ⟨hl, hdr⟩ := p
    rw [hdh] at h
    simp only at h
    set SL := (if hdr.incompat_flags &&& MAVLINK_IFLAG_SIGNED ≠ 0 then
      MAVLINK_SIGNATURE_BLOCK_LEN else 0) with hSL
    split at h
    · simp only [Prod.mk.injEq] at h
      exact hid h.2
    split at h
    · simp only [Prod.mk.injEq] at h
      exact hid h.2
    cases hreg : reg hdr.msgId with
    | none =>
      rw [hreg] at h
      simp at h
    | some sch =>
      rw [hreg] at h
      simp only at h
      cases hcrc : decode_crc msgbuf SL sch.crc_extra with
      | error e' =>
        rw [hcrc] at h
        simp only [Prod.mk.injEq] at h
        exact hid h.2
      | ok crc =>
        rw [hcrc] at h
        cases hds : decode_signature digest sg SL hdr.msgId msgbuf
            hdr.srcSystem hdr.srcComponent with
        | mk fst sgx =>
          rw [hds] at h
          cases fst with
          | error e' =>
            simp only [Prod.mk.injEq] at h
            rw [← h.2]
            exact decode_signature_error_effects hds
          | ok sig_ok =>
            rw [decode_fields_ok] at h
            simp at h

theorem handle_frame_error_effects {reg : Nat → Option Schema}
    {digest : List Nat → List Nat} {st : MAVLinkState} {magic iflags : Nat}
    {mbuf : List Nat} {out : ParseOutcome} {st' : MAVLinkState}
    (h : handle_frame reg digest st magic iflags mbuf = (out, st'))
    (hfail : (∃ d r, out = .badData d r) ∨ ∃ e, out = .raised e) :
    st'.seq = st.seq ∧ st'.srcSystem = st.srcSystem ∧ st'.srcComponent = st.srcComponent ∧
    st'.buf = st.buf ∧ st'.buf_index = st.buf_index ∧
    st'.expected_length = st.expected_length ∧
    st'.have_prefix_error = st.have_prefix_error ∧
    st'.robust_parsing = st.robust_parsing ∧
    st'.total_packets_sent = st.total_packets_sent ∧
    st'.total_bytes_sent = st.total_bytes_sent ∧
    st'.total_packets_received = st.total_packets_received ∧
    st'.total_bytes_received = st.total_bytes_received ∧
    st.total_receive_errors ≤ st'.total_receive_errors ∧
    st'.total_receive_errors ≤ st.total_receive_errors + 1 ∧
    st'.signing.timestamp = st.signing.timestamp ∧
    st'.signing.secret_key = st.signing.secret_key ∧
    st'.signing.link_id = st.signing.link_id ∧
    st'.signing.sign_outgoing = st.signing.sign_outgoing ∧
    (∀ k v, streamLookup st.signing.stream_timestamps k = some v →
      streamLookup st'.signing.stream_timestamps k = some v) := by
  unfold handle_frame at h
  split at h
  · split at h
    · simp only [Prod.mk.injEq] at h
      rw [← h.2]
      refine ⟨rfl, rfl, rfl, rfl, rfl, rfl, rfl, rfl, rfl, rfl, rfl, rfl, by simp <;> omega, by simp <;> omega,
        rfl, rfl, rfl, rfl, fun k v hkv => hkv⟩
    · split at h
      · rename_i heq
        simp only [Prod.mk.injEq] at h
        rw [← h.2]
        have hde := decode_error_effects heq
        exact ⟨rfl, rfl, rfl, rfl, rfl, rfl, rfl, rfl, rfl, rfl, rfl, rfl, by simp <;> omega, by simp <;> omega,
          hde.1, hde.2.1, hde.2.2.1, hde.2.2.2.1, hde.2.2.2.2.2⟩
      · simp only [Prod.mk.injEq] at h
        rcases hfail with ⟨d, r, hf⟩ | ⟨e', hf⟩ <;> rw [hf] at h <;> simp at h
  · split at h
    · simp only [Prod.mk.injEq] at h
      rw [← h.2]
      exact ⟨rfl, rfl, rfl, rfl, rfl, rfl, rfl, rfl, rfl, rfl, rfl, rfl, by simp <;> omega, by simp <;> omega,
        rfl, rfl, rfl, rfl, fun k v hkv => hkv⟩
    · split at h
      · rename_i heq
        simp only [Prod.mk.injEq] at h
        rw [← h.2]
        have hde := decode_error_effects heq
        exact ⟨rfl, rfl, rfl, rfl, rfl, rfl, rfl, rfl, rfl, rfl, rfl, rfl, by simp <;> omega, by simp <;> omega,
          hde.1, hde.2.1, hde.2.2.1, hde.2.2.2.1, hde.2.2.2.2.2⟩
      · simp only [Prod.mk.injEq] at h
        rcases hfail with ⟨d, r, hf⟩ | ⟨e', hf⟩ <;> rw [hf] at h <;> simp at h

theorem parse_resync_effects {st : MAVLinkState} {hl : Nat} {out : ParseOutcome}
    {st' : MAVLinkState} (h : parse_resync st hl = (out, st')) :
    st'.seq = st.seq ∧ st'.srcSystem = st.srcSystem ∧ st'.srcComponent = st.srcComponent ∧
    st'.buf = st.buf ∧ st'.robust_parsing = st.robust_parsing ∧
    st'.total_packets_sent = st.total_packets_sent ∧
    st'.total_bytes_sent = st.total_bytes_sent ∧
    st'.total_packets_received = st.total_packets_received ∧
    st'.total_bytes_received = st.total_bytes_received ∧
    st'.buf_index = st.buf_index + 1 ∧
    st.total_receive_errors ≤ st'.total_receive_errors ∧
    st'.total_receive_errors ≤ st.total_receive_errors + 1 ∧
    st'.signing = st.signing := by
  simp only [parse_resync] at h
  split at h
  · simp only [Prod.mk.injEq] at h
    rw [← h.2]
    refine ⟨rfl, rfl, rfl, rfl, rfl, rfl, rfl, rfl, rfl, rfl, ?_, ?_, rfl⟩
    · show st.total_receive_errors ≤ st.total_receive_errors + 1
      omega
    · show st.total_receive_errors + 1 ≤ st.total_receive_errors + 1
      omega
  · split at h
    · simp only [Prod.mk.injEq] at h
      rw [← h.2]
      refine ⟨rfl, rfl, rfl, rfl, rfl, rfl, rfl, rfl, rfl, rfl, ?_, ?_, rfl⟩
      · show st.total_receive_errors ≤ st.total_receive_errors
        omega
      · show st.total_receive_errors ≤ st.total_receive_errors + 1
        omega
    · simp only [Prod.mk.injEq] at h
      rw [← h.2]
      refine ⟨rfl, rfl, rfl, rfl, rfl, rfl, rfl, rfl, rfl, rfl, ?_, ?_, rfl⟩
      · show st.total_receive_errors ≤ st.total_receive_errors + 1
        omega
      · show st.total_receive_errors + 1 ≤ st.total_receive_errors + 1
        omega

theorem parse_try_frame_effects {reg : Nat → Option Schema} {digest : List Nat → List Nat}
    {st2 : MAVLinkState} {hl bl : Nat} {out : ParseOutcome} {st' : MAVLinkState}
    (h : parse_try_frame reg digest st2 hl bl = (out, st'))
    (hbl : bl ≤ st2.buf.length - st2.buf_index)
    (hfail : (∃ d r, out = .badData d r) ∨ ∃ e, out = .raised e) :
    st'.seq = st2.seq ∧ st'.srcSystem = st2.srcSystem ∧ st'.srcComponent = st2.srcComponent ∧
    st'.buf = st2.buf ∧ st'.robust_parsing = st2.robust_parsing ∧
    st'.total_packets_sent = st2.total_packets_sent ∧
    st'.total_bytes_sent = st2.total_bytes_sent ∧
    st'.total_packets_received = st2.total_packets_received ∧
    st'.total_bytes_received = st2.total_bytes_received ∧
    st2.buf_index ≤ st'.buf_index ∧ st'.buf_index ≤ st2.buf.length ∧
    st2.total_receive_errors ≤ st'.total_receive_errors ∧
    st'.total_receive_errors ≤ st2.total_receive_errors + 1 ∧
    st'.signing.timestamp = st2.signing.timestamp ∧
    st'.signing.secret_key = st2.signing.secret_key ∧
    st'.signing.link_id = st2.signing.link_id ∧
    st'.signing.sign_outgoing = st2.signing.sign_outgoing ∧
    (∀ k v, streamLookup st2.signing.stream_timestamps k = some v →
      streamLookup st'.signing.stream_timestamps k = some v) := by
  unfold parse_try_frame at h
  split at h
  · rename_i hcond
    obtain ⟨hc1, hc2⟩ := hcond
    have hhf := handle_frame_error_effects h hfail
    obtain ⟨e1, e2, e3, e4, e5, e6, e7, e8, e9, e10, e11, e12, e13, e14, e15, e16, e17,
      e18, e19⟩ := hhf
    have e5' : st'.buf_index = st2.buf_index + st2.expected_length := e5
    have e13' : st2.total_receive_errors ≤ st'.total_receive_errors := e13
    have e14' : st'.total_receive_errors ≤ st2.total_receive_errors + 1 := e14
    exact ⟨e1, e2, e3, e4, e8, e9, e10, e11, e12, by omega, by omega, e13', e14',
      e15, e16, e17, e18, e19⟩
  · rcases hfail with ⟨d, r, hf⟩ | ⟨e', hf⟩ <;> rw [hf] at h <;> simp at h

/-- Claim C3 (amended): when the parser's call produces a bad-data
placeholder or raises — a frame-level error or bad prefix — the session
state after the call differs from the state before only in the receive-error
counter (by at most one), the consumed byte range of the parser buffer (the
cursor advances within the buffer; its contents are untouched), the
expected-length hint/prefix-error flag, and the signing statistics; in
particular the session signing timestamp and all existing replay-table
entries are unchanged, though a first-seen stream key may have been added. -/
theorem frame_error_state_effects (reg : Nat → Option Schema)
    (digest : List Nat → List Nat) (st st' : MAVLinkState) (out : ParseOutcome)
    (hrun : parse_char_legacy reg digest st = (out, st'))
    (hfail : (∃ d r, out = .badData d r) ∨ ∃ e, out = .raised e) :
    st'.seq = st.seq ∧ st'.srcSystem = st.srcSystem ∧ st'.srcComponent = st.srcComponent ∧
    st'.buf = st.buf ∧ st'.robust_parsing = st.robust_parsing ∧
    st'.total_packets_sent = st.total_packets_sent ∧
    st'.total_bytes_sent = st.total_bytes_sent ∧
    st'.total_packets_received = st.total_packets_received ∧
    st'.total_bytes_received = st.total_bytes_received ∧
    st.buf_index ≤ st'.buf_index ∧ st'.buf_index ≤ st.buf.length ∧
    st.total_receive_errors ≤ st'.total_receive_errors ∧
    st'.total_receive_errors ≤ st.total_receive_errors + 1 ∧
    st'.signing.timestamp = st.signing.timestamp ∧
    st'.signing.secret_key = st.signing.secret_key ∧
    st'.signing.link_id = st.signing.link_id ∧
    st'.signing.sign_outgoing = st.signing.sign_outgoing ∧
    (∀ k v, streamLookup st.signing.stream_timestamps k = some v →
      streamLookup st'.signing.stream_timestamps k = some v) := by
  simp only [parse_char_legacy] at hrun
  split at hrun
  · rename_i hpre
    have hb := parse_resync_effects hrun
    obtain ⟨e1, e2, e3, e4, e5, e6, e7, e8, e9, e10, e11, e12, e13⟩ := hb
    refine ⟨e1, e2, e3, e4, e5, e6, e7, e8, e9, by omega, by omega, e11, e12,
      by rw [e13], by rw [e13], by rw [e13], by rw [e13], fun k v hkv => by rw [e13]; exact hkv⟩
  · by_cases h3 : 3 ≤ st.buf.length - st.buf_index
    · rw [if_pos h3] at hrun
      have ht := parse_try_frame_effects hrun (Nat.le_refl _) hfail
      exact ht
    · rw [if_neg h3] at hrun
      have ht := parse_try_frame_effects hrun (Nat.le_refl _) hfail
      exact ht

theorem frame_error_state_effects_witness :
    (parse_char_legacy c3Registry zeroDigest c3Receiver).2.signing.timestamp
      = c3Receiver.signing.timestamp ∧
    (parse_char_legacy c3Registry zeroDigest c3Receiver).2.buf = c3Receiver.buf ∧
    (parse_char_legacy c3Registry zeroDigest c3Receiver).2.seq = c3Receiver.seq := by
  have h := frame_error_state_effects c3Registry zeroDigest c3Receiver
    (parse_char_legacy c3Registry zeroDigest c3Receiver).2
    (parse_char_legacy c3Registry zeroDigest c3Receiver).1
    rfl (Or.inl ⟨c3SignedFrame, "Invalid signature", by decide⟩)
  exact ⟨h.2.2.2.2.2.2.2.2.2.2.2.2.2.1, h.2.2.2.1, h.1⟩

theorem msgId_split_or (id : Nat) :
    decodeLE [(id &&& 0xFFFF) % 256, (id &&& 0xFFFF) / 256 % 256] ||| ((id >>> 16) <<< 16)
      = id := by
  have hand : id &&& 0xFFFF = id % 65536 := by
    have h : (0xFFFF : Nat) = 2 ^ 16 - 1 := by norm_num
    rw [h, Nat.and_pow_two_sub_one_eq_mod]
  have hdec : decodeLE [(id &&& 0xFFFF) % 256, (id &&& 0xFFFF) / 256 % 256] = id % 65536 := by
    rw [hand]
    simp only [decodeLE, List.foldr_cons, List.foldr_nil, Nat.mul_zero, Nat.add_zero]
    rw [← Nat.mod_mul]
    omega
  have h2 : id % 65536 < 2 ^ 16 := by omega
  rw [hdec, Nat.shiftRight_eq_div_pow, Nat.shiftLeft_eq, Nat.lor_comm, mul_comm,
    ← Nat.mul_add_lt_is_or h2 (id / 2 ^ 16)]
  omega

theorem reorder_roundtrip (sch : Schema) (hWF : sch.WF) (values : List Int)
    (hlen : values.length = sch.wiretypes.length) :
    sch.order_map.map
      (fun o => (sch.iorder.map fun d => values.getD d 0).getD o 0) = values := by
  obtain ⟨hol, hil, hob, _hib, hio, _hoi⟩ := hWF
  apply List.ext_getElem
  · simp [hol, hlen]
  · intro i h1 h2
    simp only [List.length_map] at h1
    rw [List.getElem_map]
    have hd1 : sch.order_map[i] = sch.order_map.getD i 0 :=
      (List.getD_eq_getElem sch.order_map 0 h1).symm
    rw [hd1]
    have hoblt : sch.order_map.getD i 0 < sch.iorder.length := by
      rw [hil]; exact hob i h1
    rw [List.getD_eq_getElem (sch.iorder.map fun d => values.getD d 0) 0
      (by simpa using hoblt)]
    rw [List.getElem_map]
    have hi2 : sch.iorder[sch.order_map.getD i 0] = i := by
      have h4 := hio i h1
      rwa [List.getD_eq_getElem sch.iorder 0 hoblt] at h4
    rw [hi2]
    exact List.getD_eq_getElem values 0 h2

theorem decode_header_v2_cons (b1 b2 b3 b4 b5 b6 b7 b8 b9 : Nat) (tl : List Nat) :
    decode_header (PROTOCOL_MARKER_V2 :: b1 :: b2 :: b3 :: b4 :: b5 :: b6 :: b7 :: b8 :: b9 :: tl)
      = .ok (10, { msgId := decodeLE [b7, b8] ||| (b9 <<< 16), incompat_flags := b2,
                   compat_flags := b3, mlen := b1, seq := b4, srcSystem := b5,
                   srcComponent := b6 }) := by
  simp [decode_header, PROTOCOL_MARKER_V2, PROTOCOL_MARKER_V1, List.getD]

theorem decode_crc_append (pre : List Nat) (crc0 ce : Nat)
    (hcrc : crc0 = x25crc (pre.drop 1 ++ [ce])) (hlt : crc0 < 2 ^ 16) :
    decode_crc (pre ++ encodeLE 2 crc0) 0 ce = .ok crc0 := by
  have hel : (encodeLE 2 crc0).length = 2 := encodeLE_length 2 crc0
  have hn : (pre ++ encodeLE 2 crc0).length = pre.length + 2 := by
    simp [hel]
  simp only [decode_crc]
  rw [hn]
  have hd : (pre ++ encodeLE 2 crc0).drop (pre.length + 2 - (2 + 0)) = encodeLE 2 crc0 :=
    List.drop_left' (by omega)
  have ht : (pre ++ encodeLE 2 crc0).take (pre.length + 2 - (2 + 0)) = pre :=
    List.take_left' (by omega)
  rw [hd, ht]
  rw [List.take_of_length_le (by omega)]
  rw [if_neg (by omega)]
  rw [decodeLE_encodeLE_of_lt (by norm_num at hlt ⊢; omega)]
  rw [if_neg (by rw [hcrc]; simp)]

theorem decode_fields_roundtrip (sch : Schema) (hWF : sch.WF) (values : List Int)
    (hlen : values.length = sch.wiretypes.length)
    (hval : ∀ p ∈ List.zip sch.wiretypes (sch.iorder.map fun d => values.getD d 0),
      p.1.Valid p.2)
    (buf pre tl : List Nat) (hpre : pre.length = 10) (htl : tl.length = 2)
    (hbuf : buf = (pre ++
      (packFields sch.wiretypes (sch.iorder.map fun d => values.getD d 0)).take
        (trimLen (packFields sch.wiretypes (sch.iorder.map fun d => values.getD d 0))
          (packFields sch.wiretypes (sch.iorder.map fun d => values.getD d 0)).length)) ++ tl) :
    decode_fields sch buf 10 0 = .ok values := by
  subst hbuf
  have hvslen : (sch.iorder.map fun d => values.getD d 0).length = sch.wiretypes.length := by
    simp [hWF.2.1]
  have hplen : (packFields sch.wiretypes (sch.iorder.map fun d => values.getD d 0)).length
      = csizeOf sch.wiretypes := packFields_length hvslen
  have hptle : (trimLen (packFields sch.wiretypes (sch.iorder.map fun d => values.getD d 0))
      (packFields sch.wiretypes (sch.iorder.map fun d => values.getD d 0)).length)
      ≤ (packFields sch.wiretypes (sch.iorder.map fun d => values.getD d 0)).length :=
    trimLen_le _ _
  have hlen2 : ((pre ++
      (packFields sch.wiretypes (sch.iorder.map fun d => values.getD d 0)).take
        (trimLen (packFields sch.wiretypes (sch.iorder.map fun d => values.getD d 0))
          (packFields sch.wiretypes (sch.iorder.map fun d => values.getD d 0)).length)) ++
      tl).length = 10 +
        (trimLen (packFields sch.wiretypes (sch.iorder.map fun d => values.getD d 0))
          (packFields sch.wiretypes (sch.iorder.map fun d => values.getD d 0)).length) + 2 := by
    simp only [List.length_append, List.length_take, hpre, htl]
    omega
  simp only [decode_fields]
  rw [hlen2]
  rw [List.take_left' (by simp only [List.length_append, List.length_take, hpre]; omega)]
  rw [List.drop_left' hpre]
  rw [show csizeOf sch.wiretypes =
    (packFields sch.wiretypes (sch.iorder.map fun d => values.getD d 0)).length from hplen.symm]
  rw [zeroPad_take_trimLen]
  rw [if_neg (lt_irrefl _)]
  rw [List.take_of_length_le (le_refl _)]
  rw [unpackFields_packFields hvslen hval]
  rw [reorder_roundtrip sch hWF values hlen]


/-- Integer-scalar fragment of the pack/decode round-trip (the full-universe
statement is `pack_decode_roundtrip_full`): for a schema of scalar integer
fields, a valid assignment and a session that does not sign outgoing frames,
decoding the packed bytes yields a message equal to the packed one, with the
header identity and checksum preserved and the signing state untouched. -/
theorem pack_decode_roundtrip (reg : Nat → Option Schema) (digest : List Nat → List Nat)
    (sch : Schema) (values : List Int) (mav : MAVLinkState)
    (hWF : sch.WF) (hreg : reg sch.msgId = some sch)
    (hlen : values.length = sch.wiretypes.length)
    (hval : ∀ p ∈ List.zip sch.wiretypes (sch.iorder.map fun d => values.getD d 0),
      p.1.Valid p.2)
    (hseq : mav.seq < 256) (hsys : mav.srcSystem < 256) (hcomp : mav.srcComponent < 256)
    (hmsgid : sch.msgId < 2 ^ 24) (hcsize : csizeOf sch.wiretypes < 256)
    (hkey : mav.signing.secret_key = none) (hsign : mav.signing.sign_outgoing = false) :
    ∃ dm : Message,
      decode reg digest mav.signing (message_pack true digest sch values mav false).1.msgbuf
        = (.ok (.msg dm), mav.signing) ∧
      msg_eq (message_pack true digest sch values mav false).1 (some dm) = true ∧
      dm.fields = values ∧
      dm.seq = mav.seq ∧ dm.srcSystem = mav.srcSystem ∧
      dm.srcComponent = mav.srcComponent ∧
      dm.crc = (message_pack true digest sch values mav false).1.crc := by
  obtain ⟨mseq, msys, mcomp, mbf, mbidx, mel, mhpe, mrp, m1, m2, m3, m4, m5, msg⟩ := mav
  obtain ⟨sk, sts, slid, sso, scb, sstt, s1, s2, s3, s4, s5⟩ := msg
  have hkey2 : sk = none := hkey
  have hsign2 : sso = false := hsign
  subst hkey2
  subst hsign2
  set vs := sch.iorder.map (fun d => values.getD d 0) with hvs
  set payload := packFields sch.wiretypes vs with hpayl
  set pl := trimLen payload payload.length with hpl
  set pt := payload.take pl with hptdef
  set b7 := (sch.msgId &&& 0xFFFF) % 256 with hb7
  set b8 := (sch.msgId &&& 0xFFFF) / 256 % 256 with hb8
  set b9 := sch.msgId >>> 16 with hb9
  set hdr10 : List Nat :=
    [PROTOCOL_MARKER_V2, pt.length, 0, 0, mseq, msys, mcomp, b7, b8, b9] with hhdr10d
  set msgbuf0 := hdr10 ++ pt with hmb0
  set crc0 := x25crc (msgbuf0.drop 1 ++ [sch.crc_extra]) with hcrc0d
  set bufF := msgbuf0 ++ encodeLE 2 crc0 with hbufFd
  have hpack : (message_pack true digest sch values
      ⟨mseq, msys, mcomp, mbf, mbidx, mel, mhpe, mrp, m1, m2, m3, m4, m5,
        ⟨none, sts, slid, false, scb, sstt, s1, s2, s3, s4, s5⟩⟩ false).1
      = { typeName := sch.name, msgId := sch.msgId, incompat_flags := 0, compat_flags := 0,
          mlen := pt.length, seq := mseq, srcSystem := msys, srcComponent := mcomp,
          fields := values, crc := crc0, payload := pt, msgbuf := bufF,
          signed := false, link_id := none } := rfl
  have hhdr : decode_header bufF = .ok (10,
      { msgId := sch.msgId, incompat_flags := 0, compat_flags := 0, mlen := pt.length,
        seq := mseq, srcSystem := msys, srcComponent := mcomp }) := by
    rw [show bufF = PROTOCOL_MARKER_V2 :: pt.length :: 0 :: 0 :: mseq :: msys :: mcomp ::
      b7 :: b8 :: b9 :: (pt ++ encodeLE 2 crc0) from rfl]
    rw [decode_header_v2_cons]
    rw [hb7, hb8, hb9, msgId_split_or]
  have hn0 : msgbuf0.length = 10 + pt.length := by
    rw [hmb0, hhdr10d]
    simp
    omega
  have hnF : bufF.length = 12 + pt.length := by
    rw [hbufFd]
    simp [encodeLE_length, hn0]
    omega
  have hcrclt : crc0 < 2 ^ 16 := by
    rw [hcrc0d]
    exact x25crc_lt _
  have hcrcAp : decode_crc bufF 0 sch.crc_extra = .ok crc0 := by
    rw [hbufFd]
    exact decode_crc_append msgbuf0 crc0 sch.crc_extra hcrc0d hcrclt
  have hsigEq : decode_signature digest
      ⟨none, sts, slid, false, scb, sstt, s1, s2, s3, s4, s5⟩ 0 sch.msgId bufF msys mcomp
      = (.ok false, ⟨none, sts, slid, false, scb, sstt, s1, s2, s3, s4, s5⟩) := rfl
  have hflds : decode_fields sch bufF 10 0 = .ok values := by
    refine decode_fields_roundtrip sch hWF values hlen hval bufF hdr10 (encodeLE 2 crc0)
      (by rw [hhdr10d]; rfl) (encodeLE_length 2 crc0) ?_
    rfl
  have hmagic : bufF.getD 0 0 = PROTOCOL_MARKER_V2 := rfl
  have hsl : (if (0 : Nat) &&& MAVLINK_IFLAG_SIGNED ≠ 0 then
      MAVLINK_SIGNATURE_BLOCK_LEN else 0) = 0 := by
    norm_num [MAVLINK_IFLAG_SIGNED]
  set dm0 : Message :=
    { typeName := sch.name
      msgId := sch.msgId
      incompat_flags := 0
      compat_flags := 0
      mlen := pt.length
      seq := mseq
      srcSystem := msys
      srcComponent := mcomp
      fields := values
      crc := crc0
      payload := (bufF.take (bufF.length - (2 + 0))).drop 6
      msgbuf := bufF
      signed := false
      link_id := none } with hdm0
  have hdec : decode reg digest ⟨none, sts, slid, false, scb, sstt, s1, s2, s3, s4, s5⟩ bufF
      = (.ok (.msg dm0), ⟨none, sts, slid, false, scb, sstt, s1, s2, s3, s4, s5⟩) := by
    simp only [decode]
    rw [hhdr]
    simp only
    rw [hsl, hmagic]
    rw [if_neg (by decide)]
    rw [if_neg (by rw [hnF]; push_cast; omega)]
    rw [hreg]
    simp only
    rw [hcrcAp]
    simp only
    rw [hsigEq]
    simp only
    rw [hflds]
    simp only
    rfl
  refine ⟨dm0, ?_, ?_, rfl, rfl, rfl, rfl, rfl⟩
  · exact hdec
  · rw [hpack]
    simp [msg_eq, hdm0]

theorem pack_decode_roundtrip_witness :
    c3Schema.WF ∧ c3Registry c3Schema.msgId = some c3Schema ∧
    ∃ dm : Message,
      decode c3Registry zeroDigest c8Sender.signing
          (message_pack true zeroDigest c3Schema [77] c8Sender false).1.msgbuf
        = (.ok (.msg dm), c8Sender.signing) ∧
      msg_eq (message_pack true zeroDigest c3Schema [77] c8Sender false).1 (some dm) = true ∧
      dm.fields = [77] ∧ dm.seq = c8Sender.seq ∧ dm.srcSystem = c8Sender.srcSystem ∧
      dm.srcComponent = c8Sender.srcComponent ∧
      dm.crc = (message_pack true zeroDigest c3Schema [77] c8Sender false).1.crc :=
  ⟨by decide, by decide,
   pack_decode_roundtrip c3Registry zeroDigest c3Schema [77] c8Sender (by decide) (by decide)
     (by decide) (by decide) (by decide) (by decide) (by decide) (by decide) (by decide)
     (by decide) (by decide)⟩

/-! ### The full field-type universe of `mavfmt`

The definitions above cover the integer-scalar fragment; the following
extend the embedding to the remaining `mavfmt` codes — `float` (`f`),
`double` (`d`), `char` (`c`), numeric arrays (`'N<code>'`) and char arrays
(`'Ns'`, NUL-terminated strings) — together with `decode`'s array-reorder
branch and string-termination loop, `format_attr`, and the field comparison
`__eq__` actually performs.  Python `float` values are modelled by their
IEEE-754 binary64 bit patterns; `struct.pack('<d')`/`unpack` move the
pattern verbatim, while the `'f'` code converts through binary32
(`narrow32`/`widen32`, modelled from the spec: `struct`'s IEEE-754
conversions are the C library's, not code of this repository). -/

/-- Sign bit of a binary64 pattern. -/
def f64_sign (p : Nat) : Nat := (p >>> 63) &&& 1

/-- Biased exponent field of a binary64 pattern. -/
def f64_exp (p : Nat) : Nat := (p >>> 52) &&& 0x7FF

/-- Mantissa field of a binary64 pattern. -/
def f64_mant (p : Nat) : Nat := p &&& (2 ^ 52 - 1)

/-- NaN test on a binary64 pattern. -/
def isNaN64 (p : Nat) : Bool := f64_exp p == 0x7FF && f64_mant p != 0

/-- Zero test (either sign) on a binary64 pattern. -/
def isZero64 (p : Nat) : Bool := p &&& 0x7FFFFFFFFFFFFFFF == 0

/-- Modelled from the spec: Python `==` on two floats given by their binary64
patterns — NaN compares unequal to everything (itself included), `+0.0 ==
-0.0`, and otherwise equal values have equal patterns. -/
def float64Eq (p q : Nat) : Bool :=
  if isNaN64 p || isNaN64 q then false
  else p == q || (isZero64 p && isZero64 q)

/-- Round-to-nearest-even of `m / 2 ^ k`. -/
def roundNE (m k : Nat) : Nat :=
  let q := m >>> k
  let r := m &&& (2 ^ k - 1)
  let half := 2 ^ (k - 1)
  if k = 0 then m
  else if r > half || (r == half && q % 2 == 1) then q + 1 else q

/-- Modelled from the spec: `struct.pack('<f', v)`'s binary64 → binary32
conversion (round to nearest, ties to even; overflow to infinity; values
below the subnormal range to signed zero; NaN stays NaN with the quiet bit
forced). -/
def narrow32 (p : Nat) : Nat :=
  let s := (p >>> 63) &&& 1
  let e := (p >>> 52) &&& 0x7FF
  let m := p &&& (2 ^ 52 - 1)
  if e = 0x7FF then
    if m = 0 then (s <<< 31) ||| (0xFF <<< 23)
    else (s <<< 31) ||| (0xFF <<< 23) ||| (m >>> 29) ||| (1 <<< 22)
  else
    let eAdj := if e = 0 then 1 else e
    let M := if e = 0 then m else 2 ^ 52 + m
    let E : Int := (eAdj : Int) - 1023
    if E ≥ 128 then (s <<< 31) ||| (0xFF <<< 23)
    else if E ≥ -126 then
      let q := roundNE M 29
      if q ≥ 2 ^ 24 then
        if E + 1 ≥ 128 then (s <<< 31) ||| (0xFF <<< 23)
        else (s <<< 31) ||| ((E + 1 + 127).toNat <<< 23)
      else (s <<< 31) ||| ((E + 127).toNat <<< 23) ||| (q - 2 ^ 23)
    else
      let q := roundNE M (29 + (-126 - E).toNat)
      if q ≥ 2 ^ 23 then (s <<< 31) ||| (1 <<< 23) ||| (q - 2 ^ 23)
      else (s <<< 31) ||| q

/-- Most significant bit position of a mantissa below `2 ^ 23` (0 for 0). -/
def msb24 (m : Nat) : Nat :=
  (List.range 24).foldl (fun acc i => if 2 ^ i ≤ m then i else acc) 0

/-- Modelled from the spec: `struct.unpack('<f')`'s exact binary32 → binary64
widening (subnormals renormalise, infinities and NaNs map across). -/
def widen32 (p : Nat) : Nat :=
  let s := (p >>> 31) &&& 1
  let e := (p >>> 23) &&& 0xFF
  let m := p &&& (2 ^ 23 - 1)
  if e = 0xFF then (s <<< 63) ||| (0x7FF <<< 52) ||| (m <<< 29)
  else if e = 0 then
    if m = 0 then s <<< 63
    else
      let L := msb24 m
      (s <<< 63) ||| ((L + 874) <<< 52) ||| ((m - 2 ^ L) <<< (52 - L))
  else (s <<< 63) ||| ((e + 896) <<< 52) ||| (m <<< 29)

/-- The Python runtime values a message field can hold: `int`, `float`
(binary64 pattern), `bytes`, `str` (content as latin-1 bytes), and `list`
(numeric array fields). -/
inductive PyVal where
  | int (v : Int)
  | flt (bits : Nat)
  | bytes (s : List Nat)
  | str (s : List Nat)
  | list (vs : List PyVal)

instance : Inhabited PyVal := ⟨.int 0⟩

mutual
/-- Modelled from the spec: Python `==` on field values as `__eq__` applies
it.  Values of different runtime types compare unequal; the `int`/`float`
cross-type numeric equality Python would apply never arises between two
well-typed messages of one schema, which is the only comparison the
round-trip theorems perform. -/
def pyEq : PyVal → PyVal → Bool
  | .int a, .int b => a == b
  | .flt a, .flt b => float64Eq a b
  | .bytes a, .bytes b => a == b
  | .str a, .str b => a == b
  | .list a, .list b => pyEqList a b
  | _, _ => false

/-- Python `==` on two lists: elementwise, equal lengths. -/
def pyEqList : List PyVal → List PyVal → Bool
  | [], [] => true
  | x :: xs, y :: ys => pyEq x y && pyEqList xs ys
  | _, _ => false
end

/-- `str(MAVString(s))`: truncate at the first NUL (the whole string when
none). -/
def takeUntilNul (s : List Nat) : List Nat := s.takeWhile (fun b => b ≠ 0)

/-- `.rstrip("\x00")`: drop trailing NULs. -/
def rstripNul (s : List Nat) : List Nat :=
  (s.reverse.dropWhile (fun b => b = 0)).reverse

/-- `MAVLink_message.format_attr`: `bytes` attributes are decoded to text and
stripped of trailing NULs; every other value is returned unchanged. -/
def pyFormatAttr : PyVal → PyVal
  | .bytes s => .str (rstripNul s)
  | v => v

/-- Scalar wire codes of `mavfmt`: the eight integer codes plus `float`
(`f`) and `double` (`d`). -/
inductive BScalar where
  | int (t : FieldType)
  | f32
  | f64
deriving DecidableEq, Repr

/-- `struct` byte width of a scalar code. -/
def BScalar.width : BScalar → Nat
  | .int t => t.width
  | .f32 => 4
  | .f64 => 8

/-- One wire-order field of a schema, as `mavfmt` renders it into the
`struct` format string: a scalar code, a scalar `char` (`c`), a char array
(`'Ns'`), or a numeric array (`'N<code>'`). -/
inductive WType where
  | scalar (b : BScalar)
  | chr
  | strT (n : Nat)
  | arr (b : BScalar) (n : Nat)
deriving DecidableEq, Repr

/-- Byte width a wire field occupies in the payload. -/
def WType.widthBytes : WType → Nat
  | .scalar b => b.width
  | .chr => 1
  | .strT n => n
  | .arr b n => n * b.width

/-- Number of items the field contributes to `unpacker.unpack`'s flat tuple:
the schema's `lengths` (`len_map`) entry.  Char arrays unpack as one `bytes`
item. -/
def WType.slots : WType → Nat
  | .arr _ n => n
  | _ => 1

/-- Numeric array fields have length at least 2 (`mavfmt` renders
`array_length` 0 as a scalar code and 1-element arrays do not occur). -/
def WType.arrOK : WType → Bool
  | .arr _ n => decide (2 ≤ n)
  | _ => true

/-- `fieldtypes[i] == 'char'`: scalar chars and char arrays. -/
def WType.isChar : WType → Bool
  | .chr => true
  | .strT _ => true
  | _ => false

/-- Total payload size over the extended universe (`type.unpacker.size`). -/
def csizeX (ts : List WType) : Nat := (ts.map WType.widthBytes).sum

/-- `struct.pack` of one scalar code.  The `float` code converts through
binary32; an argument of the wrong runtime type (on which `struct.pack`
raises) packs as zeros and is excluded by the theorems' hypotheses, as in
`encodeField`. -/
def encodeBScalar : BScalar → PyVal → List Nat
  | .int t, .int v => encodeField t v
  | .f32, .flt b => encodeLE 4 (narrow32 b)
  | .f64, .flt b => encodeLE 8 b
  | b, _ => List.replicate b.width 0

/-- `struct.unpack` of one scalar code. -/
def decodeBScalar : BScalar → List Nat → PyVal
  | .int t, bs => .int (decodeField t bs)
  | .f32, bs => .flt (widen32 (decodeLE bs))
  | .f64, bs => .flt (decodeLE bs)

/-- The generated `pack` passes a numeric array element by element
(`self.field[i]` for `i in range(array_length)`); a shorter list raises
(excluded by hypothesis), extra elements are ignored. -/
def packList (b : BScalar) : List PyVal → List Nat
  | [] => []
  | v :: vs => encodeBScalar b v ++ packList b vs

/-- Bytes one wire field contributes to `struct.pack(fmt, ...)`: scalars by
code, `'c'` the single byte, `'Ns'` the value truncated/NUL-padded to `n`,
numeric arrays element by element. -/
def packSlot : WType → PyVal → List Nat
  | .scalar b, v => encodeBScalar b v
  | .chr, .bytes s => [s.getD 0 0]
  | .chr, _ => [0]
  | .strT n, .bytes s => s.take n ++ List.replicate (n - s.length) 0
  | .strT n, _ => List.replicate n 0
  | .arr b n, .list vs =>
    if n ≤ vs.length then packList b (vs.take n)
    else List.replicate (n * b.width) 0
  | .arr b n, _ => List.replicate (n * b.width) 0

/-- `struct.pack(fmt, *values)` over the wire-order fields. -/
def packValsX : List WType → List PyVal → List Nat
  | [], _ => []
  | _ :: _, [] => []
  | t :: ts, v :: vs => packSlot t v ++ packValsX ts vs

/-- The `n` flat items a numeric array contributes to the unpacked tuple. -/
def unpackArr (b : BScalar) : Nat → List Nat → List PyVal
  | 0, _ => []
  | n + 1, bs => decodeBScalar b (bs.take b.width) :: unpackArr b n (bs.drop b.width)

/-- `type.unpacker.unpack(mbuf)` as the flat wire-order tuple `t`: scalar
codes one item each, `'c'` a 1-byte `bytes`, `'Ns'` one `n`-byte `bytes`,
numeric arrays `n` items. -/
def unpackFlat : List WType → List Nat → List PyVal
  | [], _ => []
  | .scalar b :: ts, bs => decodeBScalar b (bs.take b.width) :: unpackFlat ts (bs.drop b.width)
  | .chr :: ts, bs => .bytes [bs.getD 0 0] :: unpackFlat ts (bs.drop 1)
  | .strT n :: ts, bs => .bytes (bs.take n) :: unpackFlat ts (bs.drop n)
  | .arr b n :: ts, bs => unpackArr b n bs ++ unpackFlat ts (bs.drop (n * b.width))

/-- The string-termination step of `MAVLink.decode` for a `char` field:
`tlist[i] = str(MAVString(to_string(tlist[i])))`. -/
def charTerm : PyVal → PyVal
  | .bytes s => .str (takeUntilNul s)
  | .str s => .str (takeUntilNul s)
  | v => v

/-- `True` on Python `str` values: the `isinstance(field, str)` arm of the
array-reorder branch (never taken on Python 3 unpack output). -/
def PyVal.isStr : PyVal → Bool
  | .str _ => true
  | _ => false

/-- A message schema over the full `mavfmt` universe (`wtypes` in wire
order); `order_map`/`iorder` and `crc_extra` as in `Schema`.  The schema's
`lengths` list is `wtypes.map WType.slots`. -/
structure SchemaX where
  name : String
  msgId : Nat
  wtypes : List WType
  order_map : List Nat
  iorder : List Nat
  crc_extra : Nat
deriving DecidableEq

/-- Well-formedness of a generated extended schema: the permutation facts of
`Schema.WF`, and numeric array fields have length at least 2 (`mavfmt` emits
a scalar code for `array_length` 0, and `1`-element arrays do not occur in
the dialects). -/
def SchemaX.WF (s : SchemaX) : Prop :=
  s.order_map.length = s.wtypes.length ∧
  s.iorder.length = s.wtypes.length ∧
  (∀ i, i < s.order_map.length → s.order_map.getD i 0 < s.wtypes.length) ∧
  (∀ j, j < s.iorder.length → s.iorder.getD j 0 < s.wtypes.length) ∧
  (∀ i, i < s.order_map.length → s.iorder.getD (s.order_map.getD i 0) 0 = i) ∧
  (∀ j, j < s.iorder.length → s.order_map.getD (s.iorder.getD j 0) 0 = j) ∧
  (∀ t ∈ s.wtypes, t.arrOK = true)

instance (s : SchemaX) : Decidable s.WF := by
  unfold SchemaX.WF
  infer_instance

/-- Payload slicing, zero-padding, `struct` unpacking, the `sort_fields`
reorder (scalar branch when the message has no arrays, the grouping branch
otherwise) and the string-termination loop of `MAVLink.decode`, over the
full type universe. -/
def decode_fields_x (sch : SchemaX) (msgbuf : List Nat) (headerlen signature_len : Nat) :
    Except String (List PyVal) :=
  let n := msgbuf.length
  let csize := csizeX sch.wtypes
  let mbuf := (msgbuf.take (n - (2 + signature_len))).drop headerlen
  let mbuf2 := zeroPad mbuf csize
  if mbuf2.length < csize then .error "Bad message length"
  else
    let t := unpackFlat sch.wtypes (mbuf2.take csize)
    let lm := sch.wtypes.map WType.slots
    .ok (sch.order_map.map fun o =>
      let v :=
        if lm.sum = lm.length then t.getD o (.int 0)
        else
          let L := lm.getD o 0
          let tip := (lm.take o).sum
          let field := t.getD tip (.int 0)
          if L = 1 ∨ field.isStr then field
          else .list ((t.drop tip).take L)
      if (sch.wtypes.getD o (.scalar (.int .u8))).isChar then charTerm v else v)

/-- A `MAVLink_message` whose fields range over the full value universe. -/
structure MessageX where
  typeName : String
  msgId : Nat
  incompat_flags : Nat
  compat_flags : Nat
  mlen : Nat
  seq : Nat
  srcSystem : Nat
  srcComponent : Nat
  fields : List PyVal
  crc : Nat
  payload : List Nat
  msgbuf : List Nat
  signed : Bool
  link_id : Option Nat

/-- The field loop of `__eq__`: same field count (both messages carry the
one schema's `_fieldnames`) and `format_attr` values equal under Python
`==`. -/
def pyFieldsEq (xs ys : List PyVal) : Bool :=
  xs.length == ys.length &&
    (xs.zip ys).all fun p => pyEq (pyFormatAttr p.1) (pyFormatAttr p.2)

/-- `MAVLink_message.__eq__` over the full value universe: type name,
sequence, source system/component, and the `format_attr` field values;
`None` compares `False`. -/
def msg_eq_x (a : MessageX) (other : Option MessageX) : Bool :=
  match other with
  | none => false
  | some b =>
    a.typeName == b.typeName && a.seq == b.seq && a.srcSystem == b.srcSystem &&
      a.srcComponent == b.srcComponent && pyFieldsEq a.fields b.fields

/-- `MAVLink.decode`'s success value over the full universe. -/
inductive ParsedMsgX where
  | msg (m : MessageX)
  | unknown (msgId : Nat) (data : List Nat)

/-- `MAVLink.decode` over an extended-schema registry: identical to `decode`
stage for stage (header, prefix/length checks, CRC, signature block), with
the field stage `decode_fields_x` in place of `decode_fields`. -/
def decode_x (reg : Nat → Option SchemaX) (digest : List Nat → List Nat) (sg : Signing)
    (msgbuf : List Nat) : Except String ParsedMsgX × Signing :=
  match decode_header msgbuf with
  | .error e => (.error e, sg)
  | .ok (headerlen, h) =>
    let signature_len := if h.incompat_flags &&& MAVLINK_IFLAG_SIGNED ≠ 0 then
      MAVLINK_SIGNATURE_BLOCK_LEN else 0
    let magic := msgbuf.getD 0 0
    if magic ≠ PROTOCOL_MARKER_V1 ∧ magic ≠ PROTOCOL_MARKER_V2 then
      (.error "invalid MAVLink prefix", sg)
    else if (msgbuf.length : Int) - (headerlen + 2 + signature_len) ≠ h.mlen then
      (.error "invalid MAVLink message length", sg)
    else
      match reg h.msgId with
      | none => (.ok (.unknown h.msgId msgbuf), sg)
      | some sch =>
        match decode_crc msgbuf signature_len sch.crc_extra with
        | .error e => (.error e, sg)
        | .ok crc =>
          match decode_signature digest sg signature_len h.msgId msgbuf
              h.srcSystem h.srcComponent with
          | (.error e, sg') => (.error e, sg')
          | (.ok sig_ok, sg') =>
            match decode_fields_x sch msgbuf headerlen signature_len with
            | .error e => (.error e, sg')
            | .ok fields =>
              (.ok (.msg {
                typeName := sch.name, msgId := h.msgId,
                incompat_flags := h.incompat_flags, compat_flags := h.compat_flags,
                mlen := h.mlen, seq := h.seq, srcSystem := h.srcSystem,
                srcComponent := h.srcComponent, fields := fields, crc := crc,
                payload := (msgbuf.take (msgbuf.length - (2 + signature_len))).drop 6,
                msgbuf := msgbuf, signed := sig_ok,
                link_id := if sig_ok then some (msgbuf.getD (msgbuf.length - 13) 0)
                  else none }), sg')

/-- `MAVLink_message.pack` through a generated subclass over the full
universe: serialize the declared values in wire order with `packValsX`,
then the byte-level trim/header/CRC/signing steps of `message_pack`. -/
def message_pack_x (wire2 : Bool) (digest : List Nat → List Nat) (sch : SchemaX)
    (values : List PyVal) (mav : MAVLinkState) (force_mavlink1 : Bool) :
    MessageX × MAVLinkState :=
  let payload := packValsX sch.wtypes (sch.iorder.map fun d => values.getD d (.int 0))
  let plen := if wire2 ∧ ¬force_mavlink1 then trimLen payload payload.length
    else payload.length
  let payloadT := payload.take plen
  let incompat_flags := if mav.signing.sign_outgoing then MAVLINK_IFLAG_SIGNED else 0
  let header : MAVLink_header :=
    { msgId := sch.msgId, incompat_flags := incompat_flags, compat_flags := 0,
      mlen := payloadT.length, seq := mav.seq, srcSystem := mav.srcSystem,
      srcComponent := mav.srcComponent }
  let msgbuf0 := header.pack wire2 force_mavlink1 ++ payloadT
  let crc0 := x25crc (msgbuf0.drop 1 ++ [sch.crc_extra])
  let msgbuf1 := msgbuf0 ++ encodeLE 2 crc0
  let signres :=
    if mav.signing.sign_outgoing ∧ ¬force_mavlink1 then
      sign_packet digest mav.signing msgbuf1
    else (msgbuf1, mav.signing)
  ({ typeName := sch.name, msgId := sch.msgId, incompat_flags := incompat_flags,
     compat_flags := 0, mlen := payloadT.length, seq := mav.seq,
     srcSystem := mav.srcSystem, srcComponent := mav.srcComponent,
     fields := values, crc := crc0, payload := payloadT, msgbuf := signres.1,
     signed := false, link_id := none },
   { mav with signing := signres.2 })

instance : Inhabited MessageX :=
  ⟨{ typeName := "", msgId := 0, incompat_flags := 0, compat_flags := 0, mlen := 0,
     seq := 0, srcSystem := 0, srcComponent := 0, fields := [], crc := 0, payload := [],
     msgbuf := [], signed := false, link_id := none }⟩

/-- The decoded message of a successful `decode_x` result (junk otherwise). -/
def getMsgX : Except String ParsedMsgX → MessageX
  | .ok (.msg m) => m
  | _ => default

/-- `true` iff `decode_x` returned a decoded message. -/
def isMsgOk : Except String ParsedMsgX → Bool
  | .ok (.msg _) => true
  | _ => false

/-- A schema holding one 3-byte char-array (string) field. -/
def cxSchema : SchemaX :=
  { name := "CX", msgId := 7, wtypes := [.strT 3], order_map := [0], iorder := [0],
    crc_extra := 11 }

/-- Registry holding only `cxSchema`. -/
def cxReg : Nat → Option SchemaX := fun i => if i = 7 then some cxSchema else none

/-- The string value `b"a\x00b"` — a NUL in the interior. -/
def cxVals : List PyVal := [.bytes [97, 0, 98]]

/-- The message packed from `cxVals` by a non-signing session. -/
def cxPacked : MessageX := (message_pack_x true zeroDigest cxSchema cxVals c8Sender false).1

/-- Claim C1 (counterexample to the claim as stated): packing the registered
one-string-field schema with the valid value `b"a\x00b"` and decoding the
produced bytes succeeds, but the decoded message is NOT equal to the packed
one — the string-termination step truncates the field at the interior NUL,
so `__eq__`'s field comparison fails while the header identity survives. -/
theorem pack_decode_not_eq_interior_nul :
    isMsgOk (decode_x cxReg zeroDigest c8Sender.signing cxPacked.msgbuf).1 = true ∧
    msg_eq_x cxPacked
      (some (getMsgX (decode_x cxReg zeroDigest c8Sender.signing cxPacked.msgbuf).1))
      = false ∧
    pyFieldsEq cxVals
      (getMsgX (decode_x cxReg zeroDigest c8Sender.signing cxPacked.msgbuf).1).fields
      = false ∧
    pyEqList (getMsgX (decode_x cxReg zeroDigest c8Sender.signing cxPacked.msgbuf).1).fields
      [.str [97]] = true ∧
    (getMsgX (decode_x cxReg zeroDigest c8Sender.signing cxPacked.msgbuf).1).seq
      = cxPacked.seq ∧
    (getMsgX (decode_x cxReg zeroDigest c8Sender.signing cxPacked.msgbuf).1).srcSystem
      = cxPacked.srcSystem ∧
    (getMsgX (decode_x cxReg zeroDigest c8Sender.signing cxPacked.msgbuf).1).crc
      = cxPacked.crc := by
  decide

/-- Round-trip stability of one scalar value: integers in range for their
code (`struct.pack` raises otherwise), doubles 64-bit patterns that are not
NaN, floats values that survive the single-precision wire conversion under
Python `==`. -/
def bscalarStable : BScalar → PyVal → Bool
  | .int t, .int v => decide (t.Valid v)
  | .f32, .flt b => decide (b < 2 ^ 64)
      && float64Eq b (widen32 (decodeLE (encodeLE 4 (narrow32 b))))
  | .f64, .flt b => decide (b < 2 ^ 64) && !isNaN64 b
  | _, _ => false

/-- Round-trip stability of one field value: well-typed for the wire code,
in range, strings (as `bytes`) fitting the field with no interior NUL
(truncating at the first NUL and stripping trailing NULs agree), arrays of
exactly the declared length with stable elements. -/
def slotStable : WType → PyVal → Bool
  | .scalar b, v => bscalarStable b v
  | .chr, .bytes s => s.length == 1 && s.all (· < 256)
  | .strT n, .bytes s => decide (s.length ≤ n) && s.all (· < 256)
      && takeUntilNul s == rstripNul s
  | .arr b n, .list vs => vs.length == n && vs.all (bscalarStable b)
  | _, _ => false

/-- What `unpack` yields for one scalar slot packed from `v`. -/
def decodedBScalar : BScalar → PyVal → PyVal
  | .int _, v => v
  | .f32, .flt b => .flt (widen32 (decodeLE (encodeLE 4 (narrow32 b))))
  | .f32, v => v
  | .f64, .flt b => .flt (decodeLE (encodeLE 8 b))
  | .f64, v => v

/-- The flat unpack-tuple items one wire field packed from `v` produces. -/
def slotItems : WType → PyVal → List PyVal
  | .scalar b, v => [decodedBScalar b v]
  | .chr, .bytes s => [.bytes [s.getD 0 0]]
  | .chr, v => [v]
  | .strT n, .bytes s => [.bytes (s.take n ++ List.replicate (n - s.length) 0)]
  | .strT _, v => [v]
  | .arr b n, .list vs => (vs.take n).map (decodedBScalar b)
  | .arr _ n, _ => List.replicate n (.int 0)

/-- The declared-order field value `decode` reconstructs for a wire field
packed from the stable value `v` (string termination included). -/
def decodedSlotVal : WType → PyVal → PyVal
  | .scalar b, v => decodedBScalar b v
  | .chr, .bytes s => .str (takeUntilNul [s.getD 0 0])
  | .chr, v => v
  | .strT n, .bytes s => .str (takeUntilNul (s.take n ++ List.replicate (n - s.length) 0))
  | .strT _, v => v
  | .arr b n, .list vs => .list ((vs.take n).map (decodedBScalar b))
  | .arr _ n, _ => .list (List.replicate n (.int 0))

theorem encodeBScalar_length (b : BScalar) (v : PyVal) :
    (encodeBScalar b v).length = b.width := by
  cases b <;> cases v <;>
    simp [encodeBScalar, BScalar.width, encodeLE_length, encodeField_length]

theorem decodeB_encodeB {b : BScalar} {v : PyVal} (hs : bscalarStable b v = true) :
    decodeBScalar b (encodeBScalar b v) = decodedBScalar b v := by
  cases b with
  | int t =>
    cases v <;> simp [bscalarStable] at hs
    simp [encodeBScalar, decodeBScalar, decodedBScalar, decodeField_encodeField hs]
  | f32 =>
    cases v <;> simp [bscalarStable] at hs
    rfl
  | f64 =>
    cases v <;> simp [bscalarStable] at hs
    rfl

theorem float64Eq_refl {p : Nat} (h : isNaN64 p = false) : float64Eq p p = true := by
  simp [float64Eq, h]

theorem takeUntilNul_append_zeros (s : List Nat) (k : Nat) :
    takeUntilNul (s ++ List.replicate k 0) = takeUntilNul s := by
  induction s with
  | nil =>
    show List.takeWhile _ (List.replicate k 0) = _
    cases k with
    | zero => rfl
    | succ k => simp [List.replicate_succ, List.takeWhile_cons, takeUntilNul]
  | cons a s ih =>
    show List.takeWhile _ (a :: (s ++ List.replicate k 0)) = List.takeWhile _ (a :: s)
    rw [List.takeWhile_cons, List.takeWhile_cons]
    by_cases ha : a = 0
    · subst ha
      simp
    · rw [if_pos (by simp [ha]), if_pos (by simp [ha])]
      exact congrArg (a :: ·) ih

theorem rstripNul_single (c : Nat) : rstripNul [c] = takeUntilNul [c] := by
  by_cases hc : c = 0 <;>
    simp [rstripNul, takeUntilNul, List.takeWhile, List.dropWhile, hc]

theorem bscalar_roundtrip_eq {b : BScalar} {v : PyVal} (hs : bscalarStable b v = true) :
    pyEq v (decodedBScalar b v) = true := by
  cases b with
  | int t =>
    cases v <;> simp [bscalarStable] at hs
    simp [decodedBScalar, pyEq]
  | f32 =>
    cases v <;> simp [bscalarStable] at hs
    simpa [decodedBScalar, pyEq] using hs.2
  | f64 =>
    cases v <;> simp [bscalarStable] at hs
    rename_i w
    obtain ⟨hlt, hnan⟩ := hs
    have hdec : decodeLE (encodeLE 8 w) = w := by
      rw [decodeLE_encodeLE]
      have h8 : (256 : Nat) ^ 8 = 18446744073709551616 := by norm_num
      omega
    simp [decodedBScalar, pyEq, hdec, float64Eq_refl hnan]

theorem pyEqList_map_decodedB {b : BScalar} (vs : List PyVal)
    (hs : ∀ v ∈ vs, bscalarStable b v = true) :
    pyEqList vs (vs.map (decodedBScalar b)) = true := by
  induction vs with
  | nil => rfl
  | cons v vs ih =>
    simp only [List.map_cons, pyEqList, Bool.and_eq_true]
    exact ⟨bscalar_roundtrip_eq (hs v (by simp)),
      ih fun w hw => hs w (by simp [hw])⟩

theorem slot_roundtrip_eq {t : WType} {v : PyVal} (hs : slotStable t v = true) :
    pyEq (pyFormatAttr v) (pyFormatAttr (decodedSlotVal t v)) = true := by
  cases t with
  | scalar b =>
    have hb : bscalarStable b v = true := hs
    have hfa : pyFormatAttr v = v := by
      cases b <;> cases v <;> simp [bscalarStable] at hb <;> rfl
    have hfa2 : pyFormatAttr (decodedSlotVal (.scalar b) v) = decodedBScalar b v := by
      cases b <;> cases v <;> simp [bscalarStable] at hb <;> rfl
    rw [hfa, hfa2]
    exact bscalar_roundtrip_eq hb
  | chr =>
    cases v with
    | int v => simp [slotStable] at hs
    | flt b => simp [slotStable] at hs
    | str s => simp [slotStable] at hs
    | list vs => simp [slotStable] at hs
    | bytes s =>
    simp only [slotStable, Bool.and_eq_true, beq_iff_eq] at hs
    obtain ⟨hlen1, _hbyte⟩ := hs
    obtain ⟨c, hc⟩ := List.length_eq_one.mp hlen1
    subst hc
    show pyEq (.str (rstripNul [c])) (.str (takeUntilNul [List.getD [c] 0 0])) = true
    simp only [List.getD, List.getElem?_cons_zero, Option.getD_some, rstripNul_single]
    simp [pyEq]
  | strT n =>
    cases v with
    | int v => simp [slotStable] at hs
    | flt b => simp [slotStable] at hs
    | str s => simp [slotStable] at hs
    | list vs => simp [slotStable] at hs
    | bytes s =>
    simp only [slotStable, Bool.and_eq_true, beq_iff_eq, decide_eq_true_eq] at hs
    obtain ⟨⟨hle, _hbyte⟩, hnul⟩ := hs
    have htake : s.take n = s := List.take_of_length_le hle
    show pyEq (.str (rstripNul s))
      (.str (takeUntilNul (s.take n ++ List.replicate (n - s.length) 0))) = true
    rw [htake, takeUntilNul_append_zeros, hnul]
    simp [pyEq]
  | arr b n =>
    cases v with
    | int v => simp [slotStable] at hs
    | flt b2 => simp [slotStable] at hs
    | str s => simp [slotStable] at hs
    | bytes s => simp [slotStable] at hs
    | list vs =>
    simp only [slotStable, Bool.and_eq_true, beq_iff_eq, List.all_eq_true] at hs
    obtain ⟨hlen, helem⟩ := hs
    have htake : vs.take n = vs := List.take_of_length_le (by omega)
    show pyEq (.list vs) (.list ((vs.take n).map (decodedBScalar b))) = true
    rw [htake]
    show pyEqList vs (vs.map (decodedBScalar b)) = true
    exact pyEqList_map_decodedB vs helem

theorem packList_length (b : BScalar) (vs : List PyVal) :
    (packList b vs).length = vs.length * b.width := by
  induction vs with
  | nil => simp [packList]
  | cons v vs ih =>
    simp [packList, encodeBScalar_length, ih]
    ring

theorem packSlot_length (t : WType) (v : PyVal) :
    (packSlot t v).length = t.widthBytes := by
  cases t with
  | scalar b => exact encodeBScalar_length b v
  | chr => cases v <;> simp [packSlot, WType.widthBytes]
  | strT n =>
    cases v <;> simp [packSlot, WType.widthBytes]
    omega
  | arr b n =>
    cases v <;> simp [packSlot, WType.widthBytes]
    rename_i vs
    split
    · rename_i hle
      rw [packList_length]
      simp
      omega
    · simp

theorem packValsX_length {wts : List WType} {wvals : List PyVal}
    (hlen : wvals.length = wts.length) :
    (packValsX wts wvals).length = csizeX wts := by
  induction wts generalizing wvals with
  | nil => cases wvals <;> simp [packValsX, csizeX]
  | cons t ts ih =>
    cases wvals with
    | nil => simp at hlen
    | cons v vs =>
      simp only [packValsX, List.length_append, packSlot_length, csizeX, List.map_cons,
        List.sum_cons]
      rw [show (packValsX ts vs).length = csizeX ts from ih (by simpa using hlen)]
      rfl

theorem decodeB_encodeB_rest {b : BScalar} {v : PyVal} (rest : List Nat)
    (hs : bscalarStable b v = true) :
    decodeBScalar b ((encodeBScalar b v ++ rest).take b.width) = decodedBScalar b v ∧
    (encodeBScalar b v ++ rest).drop b.width = rest := by
  have hl : (encodeBScalar b v).length = b.width := encodeBScalar_length b v
  rw [List.take_append_of_le_length (by omega), List.drop_append_of_le_length (by omega)]
  rw [List.take_of_length_le (by omega), List.drop_eq_nil_of_le (by omega)]
  simp only [List.nil_append]
  refine ⟨?_, trivial⟩
  cases b with
  | int t =>
    cases v <;> simp [bscalarStable] at hs
    simp [encodeBScalar, decodeBScalar, decodedBScalar, decodeField_encodeField hs]
  | f32 =>
    cases v <;> simp [bscalarStable] at hs
    rfl
  | f64 =>
    cases v <;> simp [bscalarStable] at hs
    rfl

theorem unpackArr_packList {b : BScalar} (vs : List PyVal) (rest : List Nat)
    (hs : ∀ v ∈ vs, bscalarStable b v = true) :
    unpackArr b vs.length (packList b vs ++ rest) = vs.map (decodedBScalar b) ∧
    (packList b vs ++ rest).drop (vs.length * b.width) = rest := by
  induction vs generalizing rest with
  | nil => simp [unpackArr, packList]
  | cons v vs ih =>
    have hv := hs v (by simp)
    have hrest := ih (packList b vs ++ rest) (fun w hw => hs w (by simp [hw]))
    simp only [packList, List.length_cons, List.map_cons, unpackArr, List.append_assoc]
    have hd := decodeB_encodeB_rest (packList b vs ++ rest) hv
    constructor
    · rw [hd.1, hd.2, (ih rest (fun w hw => hs w (by simp [hw]))).1]
    · have hlen : (encodeBScalar b v).length = b.width := encodeBScalar_length b v
      rw [show (vs.length + 1) * b.width = b.width + vs.length * b.width by ring]
      rw [List.drop_add, hd.2, (ih rest (fun w hw => hs w (by simp [hw]))).2]

/-- Concatenation of the per-slot item groups (the flat unpack tuple). -/
def concatL : List (List PyVal) → List PyVal
  | [] => []
  | l :: ls => l ++ concatL ls

theorem slotItems_length {t : WType} {v : PyVal} (hs : slotStable t v = true) :
    (slotItems t v).length = t.slots := by
  cases t with
  | scalar b => cases v <;> rfl
  | chr => cases v <;> rfl
  | strT n => cases v <;> rfl
  | arr b n =>
    cases v <;> simp [slotStable] at hs <;> simp [slotItems, WType.slots]
    omega

theorem unpackFlat_packValsX {wts : List WType} {wvals : List PyVal} (rest : List Nat)
    (hlen : wvals.length = wts.length)
    (hst : ∀ p ∈ wts.zip wvals, slotStable p.1 p.2 = true) :
    unpackFlat wts (packValsX wts wvals ++ rest)
      = concatL (List.zipWith slotItems wts wvals) := by
  induction wts generalizing wvals rest with
  | nil => cases wvals <;> simp [packValsX, unpackFlat, concatL]
  | cons t ts ih =>
    cases wvals with
    | nil => simp at hlen
    | cons v vs =>
      have hv : slotStable t v = true := hst (t, v) (by simp [List.zip_cons_cons])
      have hrec : ∀ p ∈ ts.zip vs, slotStable p.1 p.2 = true := fun p hp =>
        hst p (by simp [List.zip_cons_cons, hp])
      simp only [packValsX, List.zipWith_cons_cons, concatL, List.append_assoc]
      cases t with
      | scalar b =>
        have hd := decodeB_encodeB_rest (packValsX ts vs ++ rest) hv
        simp only [unpackFlat, packSlot]
        rw [hd.1, hd.2, ih rest (by simpa using hlen) hrec]
        rfl
      | chr =>
        cases v with
        | int w => simp [slotStable] at hv
        | flt w => simp [slotStable] at hv
        | str w => simp [slotStable] at hv
        | list w => simp [slotStable] at hv
        | bytes sb =>
          simp only [unpackFlat, packSlot, slotItems, List.singleton_append,
            List.cons_append, List.getD_cons_zero, List.drop_succ_cons, List.drop_zero,
            List.nil_append]
          rw [ih rest (by simpa using hlen) hrec]
      | strT n =>
        cases v with
        | int w => simp [slotStable] at hv
        | flt w => simp [slotStable] at hv
        | str w => simp [slotStable] at hv
        | list w => simp [slotStable] at hv
        | bytes sb =>
          have hl : (sb.take n ++ List.replicate (n - sb.length) 0).length = n := by
            simp
            omega
          simp only [unpackFlat, packSlot, slotItems]
          rw [List.take_append_of_le_length (by omega), List.drop_append_of_le_length (by omega)]
          rw [List.take_of_length_le (by omega), List.drop_eq_nil_of_le (by omega)]
          simp only [List.nil_append]
          rw [ih rest (by simpa using hlen) hrec]
          rfl
      | arr b n =>
        cases v with
        | int w => simp [slotStable] at hv
        | flt w => simp [slotStable] at hv
        | str w => simp [slotStable] at hv
        | bytes w => simp [slotStable] at hv
        | list vs2 =>
          simp only [slotStable, Bool.and_eq_true, beq_iff_eq, List.all_eq_true] at hv
          obtain ⟨hvl, helem⟩ := hv
          have htake : vs2.take n = vs2 := List.take_of_length_le (by omega)
          simp only [unpackFlat, packSlot, slotItems, htake]
          rw [if_pos (by omega)]
          have hup := unpackArr_packList (b := b) vs2 (packValsX ts vs ++ rest) helem
          rw [show vs2.length = n from hvl] at hup
          rw [hup.1, hup.2, ih rest (by simpa using hlen) hrec]

theorem concatL_drop_take (ls : List (List PyVal)) (j : Nat) (hj : j < ls.length) :
    ((concatL ls).drop (((ls.map List.length).take j).sum)).take (ls.getD j []).length
      = ls.getD j [] := by
  induction ls generalizing j with
  | nil => simp at hj
  | cons l ls ih =>
    cases j with
    | zero =>
      simp only [List.map_cons, List.take_zero, List.sum_nil, List.drop_zero,
        List.getD_cons_zero, concatL]
      exact List.take_left' rfl
    | succ j =>
      simp only [List.map_cons, List.take_succ_cons, List.sum_cons, concatL,
        List.getD_cons_succ]
      rw [List.drop_append ((((ls.map List.length).take j).sum))]
      exact ih j (by simpa using hj)

theorem concatL_getD_one (ls : List (List PyVal)) (j : Nat) (hj : j < ls.length)
    (h1 : 1 ≤ (ls.getD j []).length) :
    (concatL ls).getD (((ls.map List.length).take j).sum) (.int 0)
      = (ls.getD j []).getD 0 (.int 0) := by
  induction ls generalizing j with
  | nil => simp at hj
  | cons l ls ih =>
    cases j with
    | zero =>
      simp only [List.map_cons, List.take_zero, List.sum_nil, List.getD_cons_zero,
        concatL] at h1 ⊢
      exact List.getD_append l (concatL ls) (.int 0) 0 (by omega)
    | succ j =>
      simp only [List.map_cons, List.take_succ_cons, List.sum_cons, concatL,
        List.getD_cons_succ] at h1 ⊢
      rw [List.getD_append_right l (concatL ls) (.int 0) _ (by omega)]
      rw [show l.length + (((ls.map List.length).take j).sum) - l.length
        = (((ls.map List.length).take j).sum) by omega]
      exact ih j (by simpa using hj) h1

theorem zipWith_slotItems_getD (wts : List WType) (wvals : List PyVal) (o : Nat)
    (ho : o < wts.length) (hlen : wvals.length = wts.length) :
    (List.zipWith slotItems wts wvals).getD o []
      = slotItems (wts.getD o (.scalar (.int .u8))) (wvals.getD o (.int 0)) := by
  have hzl : (List.zipWith slotItems wts wvals).length = wts.length := by
    simp [hlen]
  rw [List.getD_eq_getElem _ _ (by omega)]
  rw [List.getElem_zipWith]
  rw [List.getD_eq_getElem wts _ ho, List.getD_eq_getElem wvals _ (by omega)]

theorem zipWith_slotItems_lengths (wts : List WType) (wvals : List PyVal)
    (hlen : wvals.length = wts.length)
    (hst : ∀ p ∈ wts.zip wvals, slotStable p.1 p.2 = true) :
    (List.zipWith slotItems wts wvals).map List.length = wts.map WType.slots := by
  induction wts generalizing wvals with
  | nil => cases wvals <;> simp
  | cons t ts ih =>
    cases wvals with
    | nil => simp at hlen
    | cons v vs =>
      simp only [List.zipWith_cons_cons, List.map_cons]
      rw [slotItems_length (hst (t, v) (by simp [List.zip_cons_cons]))]
      rw [ih vs (by simpa using hlen)
        (fun p hp => hst p (by simp [List.zip_cons_cons, hp]))]

theorem sum_take_ones {lm : List Nat} (hone : ∀ e ∈ lm, e = 1) (o : Nat) (ho : o < lm.length) :
    (lm.take o).sum = o := by
  induction lm generalizing o with
  | nil => simp at ho
  | cons a l ih =>
    cases o with
    | zero => simp
    | succ o =>
      simp only [List.take_succ_cons, List.sum_cons]
      rw [hone a (by simp), ih (fun e he => hone e (by simp [he])) o (by simpa using ho)]
      omega

theorem length_le_sum_of_ones {l : List Nat} (h : ∀ e ∈ l, 1 ≤ e) : l.length ≤ l.sum := by
  induction l with
  | nil => simp
  | cons b m ih =>
    simp only [List.length_cons, List.sum_cons]
    have hb := h b (by simp)
    have := ih (fun e he => h e (by simp [he]))
    omega

theorem sum_eq_length_all_one {lm : List Nat} (hge : ∀ e ∈ lm, 1 ≤ e)
    (hsum : lm.sum = lm.length) : ∀ e ∈ lm, e = 1 := by
  induction lm with
  | nil => simp
  | cons a l ih =>
    simp only [List.sum_cons, List.length_cons] at hsum
    have ha : 1 ≤ a := hge a (by simp)
    have hl : ∀ e ∈ l, 1 ≤ e := fun e he => hge e (by simp [he])
    have hlsum : l.length ≤ l.sum := length_le_sum_of_ones hl
    have ha1 : a = 1 := by omega
    have hsum2 : l.sum = l.length := by omega
    intro e he
    rcases List.mem_cons.mp he with he1 | he2
    · omega
    · exact ih hl hsum2 e he2

theorem decodedB_not_str {b : BScalar} {v : PyVal} (hs : bscalarStable b v = true) :
    (decodedBScalar b v).isStr = false := by
  cases b <;> cases v <;> simp [bscalarStable] at hs <;> rfl

theorem declDecoded_eq {t : WType} {v : PyVal} (hs : slotStable t v = true)
    (harr : ∀ b n, t = WType.arr b n → 2 ≤ n) (hL1 : t.slots = 1) :
    (if t.isChar then charTerm ((slotItems t v).getD 0 (.int 0))
     else (slotItems t v).getD 0 (.int 0)) = decodedSlotVal t v := by
  cases t with
  | scalar b =>
    cases v <;> rfl
  | chr =>
    cases v with
    | bytes s => rfl
    | int w => simp [slotStable] at hs
    | flt w => simp [slotStable] at hs
    | str w => simp [slotStable] at hs
    | list w => simp [slotStable] at hs
  | strT n =>
    cases v with
    | bytes s => rfl
    | int w => simp [slotStable] at hs
    | flt w => simp [slotStable] at hs
    | str w => simp [slotStable] at hs
    | list w => simp [slotStable] at hs
  | arr b n =>
    have := harr b n rfl
    simp [WType.slots] at hL1
    omega

theorem decode_fields_x_roundtrip (sch : SchemaX) (hWF : sch.WF) (values : List PyVal)
    (hlen : values.length = sch.wtypes.length)
    (hst : ∀ p ∈ sch.wtypes.zip (sch.iorder.map fun d => values.getD d (.int 0)),
      slotStable p.1 p.2 = true)
    (buf pre tl : List Nat) (hpre : pre.length = 10) (htl : tl.length = 2)
    (hbuf : buf = (pre ++
      (packValsX sch.wtypes (sch.iorder.map fun d => values.getD d (.int 0))).take
        (trimLen (packValsX sch.wtypes (sch.iorder.map fun d => values.getD d (.int 0)))
          (packValsX sch.wtypes (sch.iorder.map fun d => values.getD d (.int 0))).length)) ++ tl) :
    decode_fields_x sch buf 10 0
      = .ok (sch.order_map.map fun o =>
          decodedSlotVal (sch.wtypes.getD o (.scalar (.int .u8)))
            ((sch.iorder.map fun d => values.getD d (.int 0)).getD o (.int 0))) := by
  subst hbuf
  obtain ⟨hol, hil, hob, _hib, _hio, _hoi, harr⟩ := hWF
  have hwl : (sch.iorder.map fun d => values.getD d (.int 0)).length = sch.wtypes.length := by
    simp [hil]
  have hplen : (packValsX sch.wtypes (sch.iorder.map fun d => values.getD d (.int 0))).length
      = csizeX sch.wtypes := packValsX_length hwl
  have hptle : trimLen (packValsX sch.wtypes (sch.iorder.map fun d => values.getD d (.int 0)))
        (packValsX sch.wtypes (sch.iorder.map fun d => values.getD d (.int 0))).length
      ≤ (packValsX sch.wtypes (sch.iorder.map fun d => values.getD d (.int 0))).length :=
    trimLen_le _ _
  have hlen2 : ((pre ++
      (packValsX sch.wtypes (sch.iorder.map fun d => values.getD d (.int 0))).take
        (trimLen (packValsX sch.wtypes (sch.iorder.map fun d => values.getD d (.int 0)))
          (packValsX sch.wtypes (sch.iorder.map fun d => values.getD d (.int 0))).length)) ++
      tl).length = 10 +
        trimLen (packValsX sch.wtypes (sch.iorder.map fun d => values.getD d (.int 0)))
          (packValsX sch.wtypes (sch.iorder.map fun d => values.getD d (.int 0))).length + 2 := by
    simp only [List.length_append, List.length_take, hpre, htl]
    omega
  simp only [decode_fields_x]
  rw [hlen2]
  rw [List.take_left' (by simp only [List.length_append, List.length_take, hpre]; omega)]
  rw [List.drop_left' hpre]
  rw [show csizeX sch.wtypes
    = (packValsX sch.wtypes (sch.iorder.map fun d => values.getD d (.int 0))).length
    from hplen.symm]
  rw [zeroPad_take_trimLen]
  rw [if_neg (lt_irrefl _)]
  rw [List.take_of_length_le (le_refl _)]
  have hupk : unpackFlat sch.wtypes
      (packValsX sch.wtypes (sch.iorder.map fun d => values.getD d (.int 0)))
      = concatL (List.zipWith slotItems sch.wtypes
          (sch.iorder.map fun d => values.getD d (.int 0))) := by
    have h0 := unpackFlat_packValsX [] hwl hst
    rwa [List.append_nil] at h0
  rw [hupk]
  congr 1
  apply List.map_congr_left
  intro o hoMem
  obtain ⟨i, hi, hgi⟩ := List.getElem_of_mem hoMem
  have hilt : o < sch.wtypes.length := by
    have hb := hob i (by omega)
    rw [List.getD_eq_getElem sch.order_map 0 hi] at hb
    rw [hgi] at hb
    exact hb
  have hmaplen : (List.zipWith slotItems sch.wtypes
      (sch.iorder.map fun d => values.getD d (.int 0))).map List.length
      = sch.wtypes.map WType.slots :=
    zipWith_slotItems_lengths _ _ hwl hst
  have hglen : (List.zipWith slotItems sch.wtypes
      (sch.iorder.map fun d => values.getD d (.int 0))).length = sch.wtypes.length := by
    simp
    omega
  have hgo : (List.zipWith slotItems sch.wtypes
      (sch.iorder.map fun d => values.getD d (.int 0))).getD o []
      = slotItems (sch.wtypes.getD o (.scalar (.int .u8)))
          ((sch.iorder.map fun d => values.getD d (.int 0)).getD o (.int 0)) :=
    zipWith_slotItems_getD _ _ o hilt hwl
  have hstO : slotStable (sch.wtypes.getD o (.scalar (.int .u8)))
      ((sch.iorder.map fun d => values.getD d (.int 0)).getD o (.int 0)) = true := by
    have hzlen : (sch.wtypes.zip (sch.iorder.map fun d => values.getD d (.int 0))).length
        = sch.wtypes.length := by
      simp
      omega
    have hzget : (sch.wtypes.zip (sch.iorder.map fun d => values.getD d (.int 0))).get
        ⟨o, by omega⟩
        = (sch.wtypes.getD o (.scalar (.int .u8)),
           (sch.iorder.map fun d => values.getD d (.int 0)).getD o (.int 0)) := by
      rw [List.get_eq_getElem, List.getElem_zip]
      rw [List.getD_eq_getElem sch.wtypes _ hilt,
        List.getD_eq_getElem _ _ (by omega)]
    have hzmem := List.get_mem (sch.wtypes.zip (sch.iorder.map fun d =>
      values.getD d (.int 0))) o (by omega)
    rw [hzget] at hzmem
    exact hst _ hzmem
  have harrO : ∀ b n, sch.wtypes.getD o (.scalar (.int .u8)) = WType.arr b n → 2 ≤ n := by
    intro b n he
    have hmem : sch.wtypes.getD o (.scalar (.int .u8)) ∈ sch.wtypes := by
      rw [List.getD_eq_getElem sch.wtypes _ hilt]
      exact List.getElem_mem _
    have ha := harr _ hmem
    rw [he] at ha
    simpa [WType.arrOK] using ha
  have hone : ∀ e ∈ sch.wtypes.map WType.slots, 1 ≤ e := by
    intro e he
    obtain ⟨t, htmem, hte⟩ := List.mem_map.mp he
    subst hte
    cases t with
    | arr b n =>
      have ha := harr _ htmem
      simp only [WType.arrOK, decide_eq_true_eq] at ha
      simp [WType.slots]
      omega
    | scalar b => simp [WType.slots]
    | chr => simp [WType.slots]
    | strT n => simp [WType.slots]
  have hlmo : (sch.wtypes.map WType.slots).getD o 0
      = (sch.wtypes.getD o (.scalar (.int .u8))).slots := by
    rw [List.getD_eq_getElem _ _ (by simp; omega), List.getElem_map,
      List.getD_eq_getElem sch.wtypes _ hilt]
  by_cases hsum : (sch.wtypes.map WType.slots).sum = (sch.wtypes.map WType.slots).length
  · rw [if_pos hsum]
    have hone1 : ∀ e ∈ sch.wtypes.map WType.slots, e = 1 := sum_eq_length_all_one hone hsum
    have hsumo : (((sch.wtypes.map WType.slots).take o).sum) = o :=
      sum_take_ones hone1 o (by simp; omega)
    have hL1 : (sch.wtypes.getD o (.scalar (.int .u8))).slots = 1 := by
      rw [← hlmo]
      apply hone1
      rw [List.getD_eq_getElem _ _ (by simp; omega)]
      exact List.getElem_mem _
    have hhead := concatL_getD_one
      (List.zipWith slotItems sch.wtypes (sch.iorder.map fun d => values.getD d (.int 0)))
      o (by omega) (by rw [hgo, slotItems_length hstO, hL1])
    rw [hmaplen, hsumo] at hhead
    rw [hhead, hgo]
    exact declDecoded_eq hstO harrO hL1
  · rw [if_neg hsum]
    by_cases hL1c : (sch.wtypes.getD o (.scalar (.int .u8))).slots = 1
    · rw [if_pos (Or.inl (by rw [hlmo]; exact hL1c))]
      have hhead := concatL_getD_one
        (List.zipWith slotItems sch.wtypes (sch.iorder.map fun d => values.getD d (.int 0)))
        o (by omega) (by rw [hgo, slotItems_length hstO, hL1c])
      rw [hmaplen] at hhead
      rw [hhead, hgo]
      exact declDecoded_eq hstO harrO hL1c
    · cases hwt : sch.wtypes.getD o (.scalar (.int .u8)) with
      | scalar b => rw [hwt] at hL1c; simp [WType.slots] at hL1c
      | chr => rw [hwt] at hL1c; simp [WType.slots] at hL1c
      | strT n => rw [hwt] at hL1c; simp [WType.slots] at hL1c
      | arr b n =>
        have hn2 : 2 ≤ n := harrO b n hwt
        rw [hwt] at hstO hgo
        have hstl : slotStable (WType.arr b n)
            ((sch.iorder.map fun d => values.getD d (.int 0)).getD o (.int 0)) = true := hstO
        rcases hv2 : (sch.iorder.map fun d => values.getD d (.int 0)).getD o (.int 0) with
          w | w | w | w | vs2
        all_goals rw [hv2] at hstl
        · simp [slotStable] at hstl
        · simp [slotStable] at hstl
        · simp [slotStable] at hstl
        · simp [slotStable] at hstl
        · simp only [slotStable, Bool.and_eq_true, beq_iff_eq, List.all_eq_true] at hstl
          obtain ⟨hvl, helem⟩ := hstl
          have htakev : vs2.take n = vs2 := List.take_of_length_le (by omega)
          have hgroup : slotItems (WType.arr b n)
              ((sch.iorder.map fun d => values.getD d (.int 0)).getD o (.int 0))
              = vs2.map (decodedBScalar b) := by
            rw [hv2]
            simp [slotItems, htakev]
          have hglen2 : (vs2.map (decodedBScalar b)).length = n := by
            simp
            omega
          have hhead := concatL_getD_one
            (List.zipWith slotItems sch.wtypes
              (sch.iorder.map fun d => values.getD d (.int 0)))
            o (by omega) (by rw [hgo, hgroup, hglen2]; omega)
          rw [hmaplen] at hhead
          rw [hgo, hgroup] at hhead
          have hfieldstr : ((vs2.map (decodedBScalar b)).getD 0 (.int 0)).isStr = false := by
            have hne : vs2 ≠ [] := by
              intro hc
              rw [hc] at hvl
              simp at hvl
              omega
            obtain ⟨v0, vrest, hv0⟩ := List.exists_cons_of_ne_nil hne
            subst hv0
            simp only [List.map_cons, List.getD_cons_zero]
            exact decodedB_not_str (helem v0 (by simp))
          rw [if_neg (show ¬(WType.arr b n).isChar = true by simp [WType.isChar])]
          rw [if_neg (by
            rintro (hc | hc)
            · rw [hlmo, hwt] at hc
              simp only [WType.slots] at hc
              omega
            · rw [hhead, hfieldstr] at hc
              exact Bool.false_ne_true hc)]
          have hslice := concatL_drop_take
            (List.zipWith slotItems sch.wtypes
              (sch.iorder.map fun d => values.getD d (.int 0)))
            o (by omega)
          rw [hmaplen] at hslice
          rw [hgo, hgroup] at hslice
          rw [hlmo, hwt]
          simp only [WType.slots]
          rw [show n = (vs2.map (decodedBScalar b)).length from hglen2.symm]
          rw [hslice]
          simp [decodedSlotVal, htakev]

theorem zip_getD_mem {α β : Type _} (as : List α) (bs : List β) (da : α) (db : β)
    (o : Nat) (ho : o < as.length) (hlen : bs.length = as.length) :
    (as.getD o da, bs.getD o db) ∈ as.zip bs := by
  have hob : o < bs.length := by omega
  have hoz : o < (as.zip bs).length := by
    simp
    omega
  rw [List.getD_eq_getElem as da ho, List.getD_eq_getElem bs db hob]
  have hz : (as.zip bs)[o] = (as[o], bs[o]) := List.getElem_zip
  rw [← hz]
  exact List.getElem_mem _

theorem pyFieldsEq_decoded (sch : SchemaX) (hWF : sch.WF) (values : List PyVal)
    (hlen : values.length = sch.wtypes.length)
    (hst : ∀ p ∈ sch.wtypes.zip (sch.iorder.map fun d => values.getD d (.int 0)),
      slotStable p.1 p.2 = true) :
    pyFieldsEq values
      (sch.order_map.map fun o =>
        decodedSlotVal (sch.wtypes.getD o (.scalar (.int .u8)))
          ((sch.iorder.map fun d => values.getD d (.int 0)).getD o (.int 0))) = true := by
  obtain ⟨hol, hil, hob, _hib, hio, _hoi, _harr⟩ := hWF
  have hwl : (sch.iorder.map fun d => values.getD d (.int 0)).length = sch.wtypes.length := by
    simp [hil]
  simp only [pyFieldsEq, Bool.and_eq_true]
  constructor
  · simp [hol, hlen]
  · rw [List.all_eq_true]
    intro p hp
    obtain ⟨k, hk, hpk⟩ := List.getElem_of_mem hp
    have hklen : k < values.length := by
      simp only [List.length_zip, List.length_map, lt_min_iff] at hk
      omega
    rw [List.getElem_zip] at hpk
    have hkom : k < sch.order_map.length := by omega
    have hkmap : k < (sch.order_map.map fun o =>
        decodedSlotVal (sch.wtypes.getD o (.scalar (.int .u8)))
          ((sch.iorder.map fun d => values.getD d (.int 0)).getD o (.int 0))).length := by
      simpa using hkom
    have hoget : (sch.order_map.map fun o =>
        decodedSlotVal (sch.wtypes.getD o (.scalar (.int .u8)))
          ((sch.iorder.map fun d => values.getD d (.int 0)).getD o (.int 0)))[k]
        = decodedSlotVal (sch.wtypes.getD (sch.order_map.getD k 0) (.scalar (.int .u8)))
            ((sch.iorder.map fun d => values.getD d (.int 0)).getD
              (sch.order_map.getD k 0) (.int 0)) := by
      rw [List.getElem_map, List.getD_eq_getElem sch.order_map 0 hkom]
    have hilt : sch.order_map.getD k 0 < sch.wtypes.length := hob k hkom
    have hwv : (sch.iorder.map fun d => values.getD d (.int 0)).getD
        (sch.order_map.getD k 0) (.int 0) = values.getD k (.int 0) := by
      rw [List.getD_eq_getElem _ _ (by rw [hwl]; omega), List.getElem_map]
      rw [show sch.iorder[sch.order_map.getD k 0]
        = sch.iorder.getD (sch.order_map.getD k 0) 0 from
          (List.getD_eq_getElem sch.iorder 0 (by omega)).symm]
      rw [hio k hkom]
    have hstO : slotStable (sch.wtypes.getD (sch.order_map.getD k 0) (.scalar (.int .u8)))
        ((sch.iorder.map fun d => values.getD d (.int 0)).getD
          (sch.order_map.getD k 0) (.int 0)) = true :=
      hst _ (zip_getD_mem sch.wtypes (sch.iorder.map fun d => values.getD d (.int 0))
        _ _ _ hilt hwl)
    subst hpk
    simp only
    rw [hoget, hwv]
    rw [show values[k] = values.getD k (.int 0) from
      (List.getD_eq_getElem values _ hklen).symm]
    exact slot_roundtrip_eq (hwv ▸ hstO)

/-- Claim C1 (amended): over the full `mavfmt` type universe, for every
registered schema and every round-trip-stable valid assignment — integers in
range, non-NaN doubles, floats surviving the single-precision conversion,
strings without interior NULs fitting their field, arrays of the declared
length with stable elements — a session that does not sign outgoing frames
has `decode(pack(m)) == m`: decode succeeds and the decoded message carries
the same header identity (sequence, source system, source component) and
checksum, and field values equal under `__eq__`'s `format_attr` comparison;
the signing state is untouched. -/
theorem pack_decode_roundtrip_full (reg : Nat → Option SchemaX)
    (digest : List Nat → List Nat) (sch : SchemaX) (values : List PyVal)
    (mav : MAVLinkState)
    (hWF : sch.WF) (hreg : reg sch.msgId = some sch)
    (hlen : values.length = sch.wtypes.length)
    (hst : ∀ p ∈ sch.wtypes.zip (sch.iorder.map fun d => values.getD d (.int 0)),
      slotStable p.1 p.2 = true)
    (hseq : mav.seq < 256) (hsys : mav.srcSystem < 256) (hcomp : mav.srcComponent < 256)
    (hmsgid : sch.msgId < 2 ^ 24) (hcsize : csizeX sch.wtypes < 256)
    (hkey : mav.signing.secret_key = none) (hsign : mav.signing.sign_outgoing = false) :
    ∃ dm : MessageX,
      decode_x reg digest mav.signing
          (message_pack_x true digest sch values mav false).1.msgbuf
        = (.ok (.msg dm), mav.signing) ∧
      msg_eq_x (message_pack_x true digest sch values mav false).1 (some dm) = true ∧
      pyFieldsEq values dm.fields = true ∧
      dm.seq = mav.seq ∧ dm.srcSystem = mav.srcSystem ∧
      dm.srcComponent = mav.srcComponent ∧
      dm.crc = (message_pack_x true digest sch values mav false).1.crc := by
  obtain ⟨mseq, msys, mcomp, mbf, mbidx, mel, mhpe, mrp, m1, m2, m3, m4, m5, msg⟩ := mav
  obtain ⟨sk, sts, slid, sso, scb, sstt, s1, s2, s3, s4, s5⟩ := msg
  have hkey2 : sk = none := hkey
  have hsign2 : sso = false := hsign
  subst hkey2
  subst hsign2
  set wvals := sch.iorder.map (fun d => values.getD d (.int 0)) with hwvals
  set payload := packValsX sch.wtypes wvals with hpayl
  set pl := trimLen payload payload.length with hpl
  set pt := payload.take pl with hptdef
  set b7 := (sch.msgId &&& 0xFFFF) % 256 with hb7
  set b8 := (sch.msgId &&& 0xFFFF) / 256 % 256 with hb8
  set b9 := sch.msgId >>> 16 with hb9
  set hdr10 : List Nat :=
    [PROTOCOL_MARKER_V2, pt.length, 0, 0, mseq, msys, mcomp, b7, b8, b9] with hhdr10d
  set msgbuf0 := hdr10 ++ pt with hmb0
  set crc0 := x25crc (msgbuf0.drop 1 ++ [sch.crc_extra]) with hcrc0d
  set bufF := msgbuf0 ++ encodeLE 2 crc0 with hbufFd
  have hpack : (message_pack_x true digest sch values
      ⟨mseq, msys, mcomp, mbf, mbidx, mel, mhpe, mrp, m1, m2, m3, m4, m5,
        ⟨none, sts, slid, false, scb, sstt, s1, s2, s3, s4, s5⟩⟩ false).1
      = { typeName := sch.name, msgId := sch.msgId, incompat_flags := 0, compat_flags := 0,
          mlen := pt.length, seq := mseq, srcSystem := msys, srcComponent := mcomp,
          fields := values, crc := crc0, payload := pt, msgbuf := bufF,
          signed := false, link_id := none } := rfl
  have hhdr : decode_header bufF = .ok (10,
      { msgId := sch.msgId, incompat_flags := 0, compat_flags := 0, mlen := pt.length,
        seq := mseq, srcSystem := msys, srcComponent := mcomp }) := by
    rw [show bufF = PROTOCOL_MARKER_V2 :: pt.length :: 0 :: 0 :: mseq :: msys :: mcomp ::
      b7 :: b8 :: b9 :: (pt ++ encodeLE 2 crc0) from rfl]
    rw [decode_header_v2_cons]
    rw [hb7, hb8, hb9, msgId_split_or]
  have hn0 : msgbuf0.length = 10 + pt.length := by
    rw [hmb0, hhdr10d]
    simp
    omega
  have hnF : bufF.length = 12 + pt.length := by
    rw [hbufFd]
    simp [encodeLE_length, hn0]
    omega
  have hcrclt : crc0 < 2 ^ 16 := by
    rw [hcrc0d]
    exact x25crc_lt _
  have hcrcAp : decode_crc bufF 0 sch.crc_extra = .ok crc0 := by
    rw [hbufFd]
    exact decode_crc_append msgbuf0 crc0 sch.crc_extra hcrc0d hcrclt
  have hsigEq : decode_signature digest
      ⟨none, sts, slid, false, scb, sstt, s1, s2, s3, s4, s5⟩ 0 sch.msgId bufF msys mcomp
      = (.ok false, ⟨none, sts, slid, false, scb, sstt, s1, s2, s3, s4, s5⟩) := rfl
  have hflds : decode_fields_x sch bufF 10 0
      = .ok (sch.order_map.map fun o =>
          decodedSlotVal (sch.wtypes.getD o (.scalar (.int .u8)))
            (wvals.getD o (.int 0))) := by
    refine decode_fields_x_roundtrip sch hWF values hlen hst bufF hdr10 (encodeLE 2 crc0)
      (by rw [hhdr10d]; rfl) (encodeLE_length 2 crc0) ?_
    rfl
  have hmagic : bufF.getD 0 0 = PROTOCOL_MARKER_V2 := rfl
  have hsl : (if (0 : Nat) &&& MAVLINK_IFLAG_SIGNED ≠ 0 then
      MAVLINK_SIGNATURE_BLOCK_LEN else 0) = 0 := by
    norm_num [MAVLINK_IFLAG_SIGNED]
  set dm0 : MessageX :=
    { typeName := sch.name
      msgId := sch.msgId
      incompat_flags := 0
      compat_flags := 0
      mlen := pt.length
      seq := mseq
      srcSystem := msys
      srcComponent := mcomp
      fields := sch.order_map.map fun o =>
        decodedSlotVal (sch.wtypes.getD o (.scalar (.int .u8))) (wvals.getD o (.int 0))
      crc := crc0
      payload := (bufF.take (bufF.length - (2 + 0))).drop 6
      msgbuf := bufF
      signed := false
      link_id := none } with hdm0
  have hdec : decode_x reg digest ⟨none, sts, slid, false, scb, sstt, s1, s2, s3, s4, s5⟩ bufF
      = (.ok (.msg dm0), ⟨none, sts, slid, false, scb, sstt, s1, s2, s3, s4, s5⟩) := by
    simp only [decode_x]
    rw [hhdr]
    simp only
    rw [hsl, hmagic]
    rw [if_neg (by decide)]
    rw [if_neg (by rw [hnF]; push_cast; omega)]
    rw [hreg]
    simp only
    rw [hcrcAp]
    simp only
    rw [hsigEq]
    simp only
    rw [hflds]
    simp only
    rfl
  have hfe : pyFieldsEq values dm0.fields = true :=
    pyFieldsEq_decoded sch hWF values hlen hst
  refine ⟨dm0, ?_, ?_, ?_, rfl, rfl, rfl, rfl⟩
  · exact hdec
  · rw [hpack]
    show (sch.name == sch.name && mseq == mseq && msys == msys && mcomp == mcomp &&
      pyFieldsEq values dm0.fields) = true
    rw [hfe]
    simp
  · exact hfe

/-- Witness schema over the full universe: wire order `double, float,
uint16, char[4], int8[2], char`, declared order `uint16, float, double,
char, char[4], int8[2]`. -/
def fxSchema : SchemaX :=
  { name := "FX", msgId := 9,
    wtypes := [.scalar .f64, .scalar .f32, .scalar (.int .u16), .strT 4,
      .arr (.int .i8) 2, .chr],
    order_map := [2, 1, 0, 5, 3, 4], iorder := [2, 1, 0, 4, 5, 3], crc_extra := 21 }

/-- Registry holding only `fxSchema`. -/
def fxReg : Nat → Option SchemaX := fun i => if i = 9 then some fxSchema else none

/-- Declared-order values: `1000`, `1.5f`, `-2.25`, `b"A"`, `b"HI"`,
`[-1, 5]`. -/
def fxVals : List PyVal :=
  [.int 1000, .flt 0x3FF8000000000000, .flt 0xC002000000000000, .bytes [65],
   .bytes [72, 73], .list [.int (-1), .int 5]]

theorem pack_decode_roundtrip_full_witness :
    fxSchema.WF ∧ fxReg fxSchema.msgId = some fxSchema ∧
    (∀ p ∈ fxSchema.wtypes.zip (fxSchema.iorder.map fun d => fxVals.getD d (.int 0)),
      slotStable p.1 p.2 = true) ∧
    ∃ dm : MessageX,
      decode_x fxReg zeroDigest c8Sender.signing
          (message_pack_x true zeroDigest fxSchema fxVals c8Sender false).1.msgbuf
        = (.ok (.msg dm), c8Sender.signing) ∧
      msg_eq_x (message_pack_x true zeroDigest fxSchema fxVals c8Sender false).1 (some dm)
        = true ∧
      pyFieldsEq fxVals dm.fields = true ∧
      dm.seq = c8Sender.seq ∧ dm.srcSystem = c8Sender.srcSystem ∧
      dm.srcComponent = c8Sender.srcComponent ∧
      dm.crc = (message_pack_x true zeroDigest fxSchema fxVals c8Sender false).1.crc :=
  ⟨by decide, by decide, by decide,
   pack_decode_roundtrip_full fxReg zeroDigest fxSchema fxVals c8Sender (by decide)
     (by decide) (by decide) (by decide) (by decide) (by decide) (by decide) (by decide)
     (by decide) (by decide) (by decide)⟩

end Mavgen
